import Mathlib

/-!
# Verification of the transcript acquisition pipeline

Shallow embedding of the transcript acquisition pipeline of the
obsidian-youtube-summary plugin, together with proofs about the claims of
its specification.  The embedded functions are translated from
`src/processors/transcriptDownloader.ts`, `src/processors/videoIdExtractor.ts`,
`src/utils/helpers.ts`, `src/utils/errors.ts` and `src/types/index.ts`.

Strings are processed as `List Char`.  JavaScript's platform functions
(`requestUrl`, `JSON.parse`) are modelled as an explicit environment; the
deterministic string builtins (`String.prototype.replace`, `split`,
`includes`, `parseFloat`, `parseInt`, `String.fromCharCode`, regular
expression scanning) are modelled by executable Lean functions below.
-/

namespace YtSummary

/-- Literal-prefix test on character lists (the semantics of
`List.isPrefixOf` with decidable character equality, redefined here so that
its equations are directly available). -/
def litPrefix : List Char → List Char → Bool
  | [], _ => true
  | _ :: _, [] => false
  | p :: ps, c :: cs => p = c && litPrefix ps cs

/-- Substring test: the semantics of JavaScript `String.prototype.includes`
(the empty pattern occurs in every string). -/
def hasSub : List Char → List Char → Bool
  | [], pat => pat.isEmpty
  | l@(_ :: rest), pat => litPrefix pat l || hasSub rest pat

/-- JavaScript whitespace (the `\s` character class, also used by
`String.prototype.trim`): space, tab, line and page separators and the
Unicode space characters. -/
def isJsWs (c : Char) : Bool :=
  c = ' ' || c = '\t' || c = '\n' || c = '\r' ||
  c = '\x0b' || c = '\x0c' || c = ' ' || c = ' ' ||
  (' ' ≤ c && c ≤ ' ') || c = ' ' || c = ' ' ||
  c = ' ' || c = ' ' || c = '　' || c = '﻿'

/-- One scanning step of a global literal replacement
(`text.replace(new RegExp(pattern, 'g'), rep)` for a pattern without regex
metacharacters): the `skip` counter carries the remainder of a match that has
already been replaced, so that the recursion is structural on the text.
The replacement text is never rescanned, matching JavaScript. -/
def replGo (pat rep : List Char) : Nat → List Char → List Char
  | _ + 1, [] => []
  | skip + 1, _ :: rest => replGo pat rep skip rest
  | 0, [] => []
  | 0, c :: rest =>
    if litPrefix pat (c :: rest) then
      rep ++ replGo pat rep (pat.length - 1) rest
    else
      c :: replGo pat rep 0 rest

/-- Global literal replacement, `text.replace(new RegExp(pattern, 'g'), rep)`.
The table patterns of the entity decoder contain no regex metacharacters, so
the regex built from them matches literally.  (A degenerate empty pattern is
returned unchanged; every pattern used below is non-empty.) -/
def replaceAllJs (pat rep l : List Char) : List Char :=
  if pat.isEmpty then l else replGo pat rep 0 l

/-- First-occurrence literal replacement, `text.replace(pattern, rep)` with a
plain string pattern (JavaScript replaces only the first occurrence). -/
def replaceFirstJs (pat rep : List Char) : List Char → List Char
  | [] => if pat.isEmpty then rep else []
  | c :: rest =>
    if litPrefix pat (c :: rest) then
      rep ++ (c :: rest).drop pat.length
    else
      c :: replaceFirstJs pat rep rest

/-- One scanning step of `String.prototype.split` with a non-empty string
separator; `skip` carries the remainder of a separator occurrence. -/
def splitGo (sep : List Char) : Nat → List Char → List (List Char)
  | _ + 1, [] => [[]]
  | skip + 1, _ :: rest => splitGo sep skip rest
  | 0, [] => [[]]
  | 0, c :: rest =>
    if litPrefix sep (c :: rest) then
      [] :: splitGo sep (sep.length - 1) rest
    else
      match splitGo sep 0 rest with
      | p :: ps => (c :: p) :: ps
      | [] => [[c]]

/-- `text.split(sep)`: with an empty separator JavaScript splits into single
characters, otherwise at every occurrence of the separator. -/
def splitJs (sep l : List Char) : List (List Char) :=
  if sep.isEmpty then l.map (fun c => [c]) else splitGo sep 0 l

/-- Whitespace-run collapsing, `text.replace(/\s+/g, ' ')`: every maximal run
of JavaScript whitespace becomes a single space.  The flag records whether the
previous character belonged to a run already collapsed. -/
def collapseWsGo : Bool → List Char → List Char
  | _, [] => []
  | prevWs, c :: rest =>
    if isJsWs c then
      if prevWs then collapseWsGo true rest
      else ' ' :: collapseWsGo true rest
    else
      c :: collapseWsGo false rest

def collapseWs (l : List Char) : List Char := collapseWsGo false l

/-- `text.trim()`: strip leading and trailing JavaScript whitespace. -/
def trimJs (l : List Char) : List Char :=
  ((l.dropWhile isJsWs).reverse.dropWhile isJsWs).reverse

/-- Decimal digit-string value, the semantics of `parseInt(digits, 10)` on a
string of decimal digits. -/
def digitsToNat (l : List Char) : Nat :=
  l.foldl (fun acc c => acc * 10 + (c.toNat - '0'.toNat)) 0

def isHexDigitJs (c : Char) : Bool :=
  c.isDigit || ('a' ≤ c && c ≤ 'f') || ('A' ≤ c && c ≤ 'F')

def hexDigitVal (c : Char) : Nat :=
  if c.isDigit then c.toNat - '0'.toNat
  else if 'a' ≤ c && c ≤ 'f' then c.toNat - 'a'.toNat + 10
  else c.toNat - 'A'.toNat + 10

/-- Hexadecimal digit-string value, the semantics of `parseInt(digits, 16)`
on a string of hexadecimal digits. -/
def hexToNat (l : List Char) : Nat :=
  l.foldl (fun acc c => acc * 16 + hexDigitVal c) 0

/-- `String.fromCharCode(n)`: the UTF-16 code unit `n mod 2^16`.  (Lone
surrogate code units, which Lean characters cannot represent, are mapped to
the default character; no input below produces one.) -/
def fromCharCode (n : Nat) : Char := Char.ofNat (n % 65536)

/-- Match of the decimal character-reference regex `/&#(\d+);/` at the head of
the text: returns the referenced code and the total matched length. -/
def decMatchAt (l : List Char) : Option (Nat × Nat) :=
  if litPrefix "&#".data l then
    let rest := l.drop 2
    let ds := rest.takeWhile Char.isDigit
    if ds.isEmpty then none
    else if (rest.drop ds.length).head? = some ';' then
      some (digitsToNat ds, ds.length + 3)
    else none
  else none

/-- Match of the hexadecimal character-reference regex `/&#x([0-9a-fA-F]+);/`
at the head of the text (the `x` is lower-case, as in the source pattern). -/
def hexMatchAt (l : List Char) : Option (Nat × Nat) :=
  if litPrefix "&#x".data l then
    let rest := l.drop 3
    let ds := rest.takeWhile isHexDigitJs
    if ds.isEmpty then none
    else if (rest.drop ds.length).head? = some ';' then
      some (hexToNat ds, ds.length + 4)
    else none
  else none

/-- Scanning step of `text.replace(/&#(\d+);/g, ...fromCharCode...)`: each
decimal character reference is replaced by its character; replacements are not
rescanned. -/
def decPassGo : Nat → List Char → List Char
  | _ + 1, [] => []
  | skip + 1, _ :: rest => decPassGo skip rest
  | 0, [] => []
  | 0, c :: rest =>
    match decMatchAt (c :: rest) with
    | some (n, len) => fromCharCode n :: decPassGo (len - 1) rest
    | none => c :: decPassGo 0 rest

def decPass (l : List Char) : List Char := decPassGo 0 l

/-- Scanning step of `text.replace(/&#x([0-9a-fA-F]+);/g, ...)`. -/
def hexPassGo : Nat → List Char → List Char
  | _ + 1, [] => []
  | skip + 1, _ :: rest => hexPassGo skip rest
  | 0, [] => []
  | 0, c :: rest =>
    match hexMatchAt (c :: rest) with
    | some (n, len) => fromCharCode n :: hexPassGo (len - 1) rest
    | none => c :: hexPassGo 0 rest

def hexPass (l : List Char) : List Char := hexPassGo 0 l

/-- The fixed named-entity table of `decodeHTMLEntities`, in source order
(iteration order of `Object.entries` on the literal). -/
def entityTable : List (List Char × List Char) :=
  [("&amp;".data, "&".data),
   ("&lt;".data, "<".data),
   ("&gt;".data, ">".data),
   ("&quot;".data, "\"".data),
   ("&#39;".data, "\x27".data),
   ("&apos;".data, "\x27".data),
   ("&#x27;".data, "\x27".data),
   ("&#x2F;".data, "/".data),
   ("&#32;".data, " ".data),
   ("&nbsp;".data, " ".data)]

/-- `TranscriptDownloader.decodeHTMLEntities`: apply each table substitution
globally in table order, then resolve decimal and hexadecimal character
references. -/
def decodeHTMLEntities (text : String) : String :=
  let decoded := entityTable.foldl (fun acc p => replaceAllJs p.1 p.2 acc) text.data
  let decoded := decPass decoded
  let decoded := hexPass decoded
  String.mk decoded

/-- A JavaScript number as produced by `parseFloat`: NaN, an infinity, or a
finite value (modelled exactly as a rational; the binary rounding of IEEE
doubles is not modelled, and no property below inspects rounded values). -/
inductive JsNumber where
  | nan : JsNumber
  | posInf : JsNumber
  | negInf : JsNumber
  | val (q : ℚ) : JsNumber
deriving DecidableEq, Repr

/-- Fractional part value: digits `ds` after the decimal point denote
`ds / 10 ^ |ds|`. -/
def fracVal (ds : List Char) : ℚ :=
  (digitsToNat ds : ℚ) / (10 : ℚ) ^ ds.length

/-- The numeric literal prefix after sign handling: digits, an optional
fraction, and an optional exponent part (which is ignored when it has no
digits, as in JavaScript's longest-valid-prefix rule). -/
def parseFloatBody (l : List Char) (neg : Bool) : JsNumber :=
  if litPrefix "Infinity".data l then (if neg then .negInf else .posInf)
  else
    let intPart := l.takeWhile Char.isDigit
    let r1 := l.drop intPart.length
    let fracPart :=
      match r1 with
      | '.' :: r => r.takeWhile Char.isDigit
      | _ => []
    let r2 :=
      match r1 with
      | '.' :: r => r.drop fracPart.length
      | _ => r1
    if intPart.isEmpty && fracPart.isEmpty then .nan
    else
      let mant : ℚ := (digitsToNat intPart : ℚ) + fracVal fracPart
      let expo : Int :=
        match r2 with
        | e :: r3 =>
          if e = 'e' || e = 'E' then
            match r3 with
            | '+' :: r4 => (digitsToNat (r4.takeWhile Char.isDigit) : Int)
            | '-' :: r4 => -(digitsToNat (r4.takeWhile Char.isDigit) : Int)
            | r4 => (digitsToNat (r4.takeWhile Char.isDigit) : Int)
          else 0
        | [] => 0
      let hasExpoDigits :=
        match r2 with
        | e :: r3 =>
          if e = 'e' || e = 'E' then
            match r3 with
            | '+' :: r4 => !(r4.takeWhile Char.isDigit).isEmpty
            | '-' :: r4 => !(r4.takeWhile Char.isDigit).isEmpty
            | r4 => !(r4.takeWhile Char.isDigit).isEmpty
          else false
        | [] => false
      let value := if hasExpoDigits then mant * (10 : ℚ) ^ expo else mant
      .val (if neg then -value else value)

/-- `parseFloat(text)`: skip leading whitespace, read an optional sign, then
the longest numeric-literal prefix; NaN when no digits are found. -/
def parseFloatJs (s : String) : JsNumber :=
  let l := s.data.dropWhile isJsWs
  match l with
  | '+' :: r => parseFloatBody r false
  | '-' :: r => parseFloatBody r true
  | r => parseFloatBody r false

/-- A parsed transcript segment (the downloader's local interface
`TranscriptSegment`): decoded later, so `text` is still entity-encoded here. -/
structure TranscriptSegment where
  text : String
  duration : JsNumber
  offset : JsNumber
deriving DecidableEq, Repr

/-- One step of the transcript-regex match: a literal, then a maximal run of
class characters (the class excludes the character that must follow, so the
greedy run needs no backtracking); returns the capture and the remainder. -/
def matchLitCap (lit : List Char) (cls : Char → Bool) (l : List Char) :
    Option (List Char × List Char) :=
  if litPrefix lit l then
    let r := l.drop lit.length
    let cap := r.takeWhile cls
    some (cap, r.drop cap.length)
  else none

/-- Match of the transcript regex
`/<text start="([^"]*)" dur="([^"]*)">([^<]*)<\/text>/` at the head of the
text: the three captures and the total matched length. -/
def xmlMatchAt (l : List Char) : Option (List Char × List Char × List Char × Nat) :=
  match matchLitCap "<text start=\"".data (fun c => c ≠ '"') l with
  | none => none
  | some (g1, r2) =>
    match matchLitCap "\" dur=\"".data (fun c => c ≠ '"') r2 with
    | none => none
    | some (g2, r4) =>
      match matchLitCap "\">".data (fun c => c ≠ '<') r4 with
      | none => none
      | some (g3, r6) =>
        if litPrefix "</text>".data r6 then
          some (g1, g2, g3,
            "<text start=\"".data.length + g1.length + "\" dur=\"".data.length +
            g2.length + "\">".data.length + g3.length + "</text>".data.length)
        else none

/-- Scanning step of repeated `RE_XML_TRANSCRIPT.exec`: leftmost matches in
order, continuing after each match; `skip` carries the remainder of a match
already consumed. -/
def xmlScanGo : Nat → List Char → List (List Char × List Char × List Char)
  | _ + 1, [] => []
  | skip + 1, _ :: rest => xmlScanGo skip rest
  | 0, [] => []
  | 0, c :: rest =>
    match xmlMatchAt (c :: rest) with
    | some (g1, g2, g3, len) => (g1, g2, g3) :: xmlScanGo (len - 1) rest
    | none => xmlScanGo 0 rest

/-- `TranscriptDownloader.parseTranscriptXML`: every regex match becomes a
segment with `offset = parseFloat(start)`, `duration = parseFloat(dur)` and
the raw captured text, in source order. -/
def parseTranscriptXML (xml : String) : List TranscriptSegment :=
  (xmlScanGo 0 xml.data).map fun m =>
    { offset := parseFloatJs (String.mk m.1)
      duration := parseFloatJs (String.mk m.2.1)
      text := String.mk m.2.2 }

/-- NaN test on a parsed number (used to observe, without computing rational
values, whether a numeric attribute failed to parse). -/
def JsNumber.isNaN : JsNumber → Bool
  | .nan => true
  | _ => false

/-- A thrown JavaScript error, by class: `TranscriptNotFoundError` and
`VideoIdNotFoundError` from `src/utils/errors.ts`, and `generic` for any
other `Error` (such as a network failure thrown by the HTTP transport). -/
inductive JsError where
  | tnfe (message : String) : JsError
  | videoIdNotFound (message : String) : JsError
  | generic (name message : String) : JsError
deriving DecidableEq, Repr

def JsError.message : JsError → String
  | .tnfe m => m
  | .videoIdNotFound m => m
  | .generic _ m => m

/-- `error instanceof TranscriptNotFoundError`. -/
def JsError.isTranscriptNotFound : JsError → Bool
  | .tnfe _ => true
  | _ => false

/-- The downloader's `CaptionTrack` interface. -/
structure CaptionTrack where
  baseUrl : String
  languageCode : String
  name : Option String
  kind : Option String
deriving DecidableEq, Repr

/-- The `playerCaptionsTracklistRenderer` object extracted from the parsed
captions JSON (`captionTracks` is optional). -/
structure CaptionsRenderer where
  captionTracks : Option (List CaptionTrack)
deriving DecidableEq, Repr

/-- An HTTP response as seen through `requestUrl`. -/
structure HttpResponse where
  status : Nat
  text : String
deriving DecidableEq, Repr

/-- Outcome of a `requestUrl` call: a response, or a thrown error. -/
inductive FetchOutcome where
  | ok (r : HttpResponse) : FetchOutcome
  | thrown (e : JsError) : FetchOutcome
deriving DecidableEq, Repr

/-- The external world of one `download` call: the video-page response per
attempt index, the caption-payload response per attempt index and URL, and
the outcome of `JSON.parse(...)?.playerCaptionsTracklistRenderer` per input
string (`Except.error` models a parse exception, `Option.none` a parse result
without that member).  `requestUrl` and `JSON.parse` are platform functions,
so they are part of the environment rather than of the embedded code. -/
structure Env where
  page : Nat → FetchOutcome
  captionPayload : Nat → String → FetchOutcome
  jsonParse : String → Except JsError (Option CaptionsRenderer)

/-- `VideoMetadata` from `src/types/index.ts`. -/
structure VideoMetadata where
  title : String
  author : String
  publishDate : Option String
  duration : Option Nat
deriving DecidableEq, Repr

/-- The object literal actually returned by `TranscriptDownloader.download`
on success: text and metadata only.  (Contrast with `TranscriptResult`
below, the interface the function is declared to return.) -/
structure DownloadResult where
  text : String
  metadata : VideoMetadata
deriving DecidableEq, Repr

/-- `TranscriptResult` from `src/types/index.ts`: the declared aggregate of
full text, ordered segment sequence and metadata. -/
structure TranscriptResult where
  text : String
  segments : List TranscriptSegment
  metadata : VideoMetadata
deriving DecidableEq, Repr

/-- First for-loop of `findBestCaptionTrack`: for each preferred language in
order, the first track whose language code is exactly that language. -/
def findExactLoop : List String → List CaptionTrack → Option CaptionTrack
  | [], _ => none
  | lang :: rest, tracks =>
    match tracks.find? (fun t => t.languageCode == lang) with
    | some t => some t
    | none => findExactLoop rest tracks

/-- Second for-loop of `findBestCaptionTrack`: for each preferred language in
order, the first track whose language code starts with that language. -/
def findPrefixLoop : List String → List CaptionTrack → Option CaptionTrack
  | [], _ => none
  | lang :: rest, tracks =>
    match tracks.find? (fun t => t.languageCode.startsWith lang) with
    | some t => some t
    | none => findPrefixLoop rest tracks

/-- `TranscriptDownloader.findBestCaptionTrack`: exact language match in
preference order, then prefix match in preference order, then the first
non-machine-generated track (`kind !== 'asr'`), then the first track;
`null` when none of these produces a track. -/
def findBestCaptionTrack (tracks : List CaptionTrack)
    (preferredLanguages : List String) : Option CaptionTrack :=
  match findExactLoop preferredLanguages tracks with
  | some t => some t
  | none =>
    match findPrefixLoop preferredLanguages tracks with
    | some t => some t
    | none =>
      match tracks.find? (fun t => t.kind != some "asr") with
      | some t => some t
      | none => tracks.head?

/-- Leftmost match of a regex of shape `lit1([cls]+)lit2` (or `[cls]*` when
`reqOne` is false): at each start position, the literal prefix, then a
maximal run of class characters, then the second literal.  Because each class
excludes the first character of the literal that follows it in every use
below, the greedy run needs no backtracking. -/
def scanLitCapLit (lit1 : List Char) (cls : Char → Bool) (reqOne : Bool)
    (lit2 : List Char) : List Char → Option (List Char)
  | [] => none
  | c :: rest =>
    let here :=
      if litPrefix lit1 (c :: rest) then
        let r := (c :: rest).drop lit1.length
        let cap := r.takeWhile cls
        if (!reqOne || !cap.isEmpty) && litPrefix lit2 (r.drop cap.length) then
          some cap
        else none
      else none
    match here with
    | some cap => some cap
    | none => scanLitCapLit lit1 cls reqOne lit2 rest

/-- Lazy content scan for `/<title>(.*?)<\/title>/`: the shortest content
(not containing a line terminator, since `.` does not match one) up to the
closing tag; `none` when no such content exists at this start. -/
def titleContentAt : List Char → Option (List Char)
  | [] => none
  | c :: rest =>
    if litPrefix "</title>".data (c :: rest) then some []
    else if c = '\n' then none
    else (titleContentAt rest).map (fun cs => c :: cs)

/-- Leftmost match of `/<title>(.*?)<\/title>/`. -/
def scanTitle : List Char → Option (List Char)
  | [] => none
  | c :: rest =>
    if litPrefix "<title>".data (c :: rest) then
      match titleContentAt ((c :: rest).drop 7) with
      | some content => some content
      | none => scanTitle rest
    else scanTitle rest

/-- `TranscriptDownloader.extractMetadataFromPage`: independent best-effort
regex scans for title, author, publish date and duration; missing fields
default to `'Unknown'` or `undefined`. -/
def extractMetadataFromPage (html : String) : VideoMetadata :=
  let d := html.data
  let title :=
    match scanTitle d with
    | some content =>
        String.mk (trimJs (replaceFirstJs " - YouTube".data [] content))
    | none => "Unknown"
  let author :=
    match scanLitCapLit "\"author\":\"".data (fun c => c ≠ '"') true "\"".data d with
    | some a => String.mk a
    | none => "Unknown"
  let publishDate :=
    (scanLitCapLit "\"publishDate\":\"".data (fun c => c ≠ '"') true "\"".data d).map
      String.mk
  let duration :=
    (scanLitCapLit "\"lengthSeconds\":\"".data Char.isDigit true "\"".data d).map
      digitsToNat
  { title := title, author := author, publishDate := publishDate,
    duration := duration }

/-- The captions JSON text cut out of the page body:
`videoPageBody.split('"captions":')[1].split(',"videoDetails')[0].replace('\\n', '')`. -/
def captionsJsonOf (videoPageBody : String) : String :=
  String.mk (replaceFirstJs "\n".data []
    ((splitJs ",\"videoDetails".data
      (((splitJs "\"captions\":".data videoPageBody.data).drop 1).headD [])).headD []))

/-- The body of one iteration of `download`'s retry loop (the `try` block):
fetch the video page, classify challenge/unavailable/disabled conditions,
extract and parse the captions block, resolve the best track, fetch and parse
its payload, and assemble the returned object. -/
def attemptOnce (env : Env) (languages : List String) (attempt : Nat) :
    Except JsError DownloadResult :=
  match env.page attempt with
  | .thrown e => .error e
  | .ok pageResp =>
    let videoPageBody := pageResp.text
    if hasSub videoPageBody.data "class=\"g-recaptcha\"".data then
      .error (.tnfe "YouTube is receiving too many requests. Please try again later.")
    else if !hasSub videoPageBody.data "\"playabilityStatus\":".data then
      .error (.tnfe "Video is unavailable or has been deleted")
    else
      let splittedHTML := splitJs "\"captions\":".data videoPageBody.data
      if splittedHTML.length ≤ 1 then
        .error (.tnfe "Transcript is disabled on this video")
      else
        match env.jsonParse (captionsJsonOf videoPageBody) with
        | .error _ => .error (.tnfe "Failed to parse captions data")
        | .ok captions =>
          match captions with
          | none => .error (.tnfe "No transcript available for this video")
          | some renderer =>
            match renderer.captionTracks with
            | none => .error (.tnfe "No transcript available for this video")
            | some [] => .error (.tnfe "No transcript available for this video")
            | some tracks =>
              match findBestCaptionTrack tracks languages with
              | none =>
                let availableLangs :=
                  String.intercalate ", " (tracks.map (fun t => t.languageCode))
                .error (.tnfe ("No transcript available in " ++
                  String.intercalate "/" languages ++ ". Available: " ++ availableLangs))
              | some captionTrack =>
                match env.captionPayload attempt captionTrack.baseUrl with
                | .thrown e => .error e
                | .ok transcriptResponse =>
                  if transcriptResponse.status ≠ 200 then
                    .error (.tnfe "Failed to download transcript")
                  else
                    let segments := parseTranscriptXML transcriptResponse.text
                    if segments.length = 0 then
                      .error (.tnfe "Transcript is empty")
                    else
                      let fullText :=
                        String.mk (trimJs (collapseWs (String.intercalate " "
                          (segments.map (fun s => decodeHTMLEntities s.text))).data))
                      .ok { text := fullText,
                            metadata := extractMetadataFromPage videoPageBody }

/-- The message of the final `throw` after the loop: the last error's
message, or `'Unknown error'` when there is none or it is empty (the `||`
fallback on a falsy string). -/
def finalFailure (maxRetries : Nat) (lastError : Option JsError) :
    Except JsError DownloadResult :=
  let m :=
    match lastError with
    | some e => if e.message = "" then "Unknown error" else e.message
    | none => "Unknown error"
  .error (.tnfe ("Failed to download transcript after " ++ toString maxRetries ++
    " attempts: " ++ m))

/-- The retry loop of `download`, structural on the number of remaining
iterations (`remaining = maxRetries - attempt`).  A `TranscriptNotFoundError`
is rethrown immediately; other errors back off `1000 * 2 ^ attempt`
milliseconds and retry, except on the last attempt, which breaks to the
final failure.  The second component accumulates the backoff sleeps
performed, in order. -/
def downloadGo (env : Env) (maxRetries : Nat) (languages : List String) :
    Nat → Nat → Option JsError → List Nat →
    Except JsError DownloadResult × List Nat
  | 0, _, lastError, sleeps => (finalFailure maxRetries lastError, sleeps)
  | remaining + 1, attempt, _, sleeps =>
    match attemptOnce env languages attempt with
    | .ok r => (.ok r, sleeps)
    | .error e =>
      if e.isTranscriptNotFound then (.error e, sleeps)
      else if remaining = 0 then (finalFailure maxRetries (some e), sleeps)
      else
        downloadGo env maxRetries languages remaining (attempt + 1) (some e)
          (sleeps ++ [1000 * 2 ^ attempt])

/-- `TranscriptDownloader.download` for a downloader constructed with
`maxRetries` (default 3), paired with the list of backoff sleeps performed. -/
def download (env : Env) (maxRetries : Nat := 3)
    (languages : List String := ["ko", "en"]) :
    Except JsError DownloadResult × List Nat :=
  downloadGo env maxRetries languages maxRetries 0 none []

/-- The identifier alphabet `[a-zA-Z0-9_-]`. -/
def isIdChar (c : Char) : Bool :=
  (('a' ≤ c && c ≤ 'z') || ('A' ≤ c && c ≤ 'Z') || c.isDigit || c = '_' || c = '-')

/-- `sanitizeVideoId` from `src/utils/helpers.ts`: strip every character
outside the identifier alphabet. -/
def sanitizeVideoId (id : String) : String :=
  String.mk (id.data.filter isIdChar)

/-- JavaScript line terminators, the characters `.` does not match. -/
def isLineTerm (c : Char) : Bool :=
  c = '\n' || c = '\r' || c = ' ' || c = ' '

/-- Case-insensitive literal prefix (for regexes with the `i` flag). -/
def ciLitPrefix : List Char → List Char → Bool
  | [], _ => true
  | _ :: _, [] => false
  | p :: ps, c :: cs => p.toLower = c.toLower && ciLitPrefix ps cs

/-- Character class `[^"&?\/\s]` of `RE_YOUTUBE`'s capture group. -/
def isReYtIdChar (c : Char) : Bool :=
  !(c = '"' || c = '&' || c = '?' || c = '/' || isJsWs c)

/-- Capture of `{11}` characters of class `cls` at the head of the text. -/
def capture11 (cls : Char → Bool) (l : List Char) : Option (List Char) :=
  let cap := l.take 11
  if cap.length = 11 && cap.all cls then some cap else none

/-- Candidate remainders, in backtracking order, of `RE_YOUTUBE`'s first
inner alternative `[^\/]+\/.+\/` after `youtube.com/`: the `[^\/]+` run is
forced to end at the first slash, then greedy `.+` tries each later slash
from the right. -/
def reYtAltPathCands (r : List Char) : List (List Char) :=
  let a := r.takeWhile (fun c => c ≠ '/')
  if a.isEmpty then []
  else
    match r.drop a.length with
    | '/' :: r' =>
      ((List.range r'.length).reverse.filterMap fun j =>
        if 1 ≤ j && r'[j]? = some '/' && (r'.take j).all (fun c => !isLineTerm c)
        then some (r'.drop (j + 1)) else none)
    | _ => []

/-- Candidate remainders of the second inner alternative
`(?:v|e(?:mbed)?)\/`: `v/` first, then the greedy optional gives `embed/`
before `e/`. -/
def reYtAltVECands (r : List Char) : List (List Char) :=
  (if ciLitPrefix "v/".data r then [r.drop 2] else []) ++
  (if ciLitPrefix "embed/".data r then [r.drop 6] else []) ++
  (if ciLitPrefix "e/".data r then [r.drop 2] else [])

/-- Candidate remainders of the third inner alternative `.*[?&]v=`: greedy
`.*` tries each `?` or `&` followed by `v=` from the right, the consumed
prefix containing no line terminator. -/
def reYtAltQueryCands (r : List Char) : List (List Char) :=
  (List.range r.length).reverse.filterMap fun j =>
    if (r[j]? = some '?' || r[j]? = some '&') &&
        (r.take j).all (fun c => !isLineTerm c) &&
        ciLitPrefix "v=".data (r.drop (j + 1))
    then some (r.drop (j + 3)) else none

/-- Match of `RE_YOUTUBE` at one start position: the host alternatives in
written order, each candidate continuation in backtracking order, and the
11-character capture tried at each. -/
def reYoutubeAt (s : List Char) : Option (List Char) :=
  let fromYoutube :=
    if ciLitPrefix "youtube.com/".data s then
      let r := s.drop 12
      (reYtAltPathCands r ++ reYtAltVECands r ++ reYtAltQueryCands r).findSome?
        (capture11 isReYtIdChar)
    else none
  match fromYoutube with
  | some cap => some cap
  | none =>
    if ciLitPrefix "youtu.be/".data s then capture11 isReYtIdChar (s.drop 9)
    else none

/-- Leftmost match of `RE_YOUTUBE` over the whole input. -/
def reYoutubeMatch : List Char → Option (List Char)
  | [] => none
  | c :: rest =>
    match reYoutubeAt (c :: rest) with
    | some cap => some cap
    | none => reYoutubeMatch rest

/-- `TranscriptDownloader.extractVideoId`: accept the input directly when it
is exactly 11 characters of the identifier alphabet (no trimming), otherwise
match `RE_YOUTUBE` and return its capture; `null` when neither applies. -/
def extractVideoId (url : String) : Option String :=
  if url.length = 11 && url.data.all isIdChar then some url
  else (reYoutubeMatch url.data).map String.mk

/-- Leftmost match of `/[?&]v=([a-zA-Z0-9_-]{11})/`. -/
def watchPatternMatch : List Char → Option (List Char)
  | [] => none
  | c :: rest =>
    match
      (if (c = '?' || c = '&') && litPrefix "v=".data rest then
        capture11 isIdChar (rest.drop 2)
      else none) with
    | some cap => some cap
    | none => watchPatternMatch rest

/-- Leftmost match of a pattern `literal([a-zA-Z0-9_-]{11})`. -/
def litThenIdMatch (lit : List Char) : List Char → Option (List Char)
  | [] => none
  | c :: rest =>
    match
      (if litPrefix lit (c :: rest) then
        capture11 isIdChar ((c :: rest).drop lit.length)
      else none) with
    | some cap => some cap
    | none => litThenIdMatch lit rest

/-- Lazy continuation of `/(?:youtube\.com|youtu\.be).*?([a-zA-Z0-9_-]{11})/`
after the host literal: the shortest `.*?` (not crossing a line terminator)
such that an 11-character identifier follows. -/
def lazyIdScan : List Char → Option (List Char)
  | [] => none
  | c :: rest =>
    match capture11 isIdChar (c :: rest) with
    | some cap => some cap
    | none => if isLineTerm c then none else lazyIdScan rest

/-- Leftmost match of the generic pattern
`/(?:youtube\.com|youtu\.be).*?([a-zA-Z0-9_-]{11})/`. -/
def genericPatternMatch : List Char → Option (List Char)
  | [] => none
  | c :: rest =>
    match
      (if litPrefix "youtube.com".data (c :: rest) then
        lazyIdScan ((c :: rest).drop 11)
      else if litPrefix "youtu.be".data (c :: rest) then
        lazyIdScan ((c :: rest).drop 8)
      else none) with
    | some cap => some cap
    | none => genericPatternMatch rest

/-- `VideoIdExtractor.extract`: the four URL-shape patterns in priority
order, each successful capture passed through `sanitizeVideoId`; throws
`VideoIdNotFoundError` when the input is falsy or no pattern matches.
There is no direct-acceptance branch for a bare identifier. -/
def VideoIdExtractor.extract (url : String) : Except JsError String :=
  if url = "" then .error (.videoIdNotFound "Invalid URL provided")
  else
    match watchPatternMatch url.data with
    | some cap => .ok (sanitizeVideoId (String.mk cap))
    | none =>
      match litThenIdMatch "youtu.be/".data url.data with
      | some cap => .ok (sanitizeVideoId (String.mk cap))
      | none =>
        match litThenIdMatch "youtube.com/embed/".data url.data with
        | some cap => .ok (sanitizeVideoId (String.mk cap))
        | none =>
          match genericPatternMatch url.data with
          | some cap => .ok (sanitizeVideoId (String.mk cap))
          | none =>
            .error (.videoIdNotFound
              ("Could not extract video ID from URL: " ++ url))

deriving instance DecidableEq for Except

/-- Classification of a `download` outcome: `true` when the run succeeded or
failed with the single exception class `TranscriptNotFoundError`, `false`
when any other error class escaped. -/
def failureIsTranscriptNotFound :
    Except JsError DownloadResult × List Nat → Bool
  | (.error (.tnfe _), _) => true
  | (.error _, _) => false
  | (.ok _, _) => true

/-- A well-formed timed-text element in the exact shape the transcript regex
recognises, preceded by arbitrary markup noise. -/
structure RawElement where
  noise : String
  start : String
  dur : String
  content : String

/-- The serialised form of one element:
`<text start="(start)" dur="(dur)">(content)</text>`. -/
def xmlElement (e : RawElement) : String :=
  "<text start=\"" ++ e.start ++ "\" dur=\"" ++ e.dur ++ "\">" ++
    e.content ++ "</text>"

/-- A payload interleaving noise and elements, with trailing noise. -/
def assemblePayload (es : List RawElement) (tail : String) : String :=
  es.foldr (fun e acc => e.noise ++ xmlElement e ++ acc) tail

/-- The segment the parser produces for one raw element. -/
def segmentOf (e : RawElement) : TranscriptSegment :=
  { text := e.content
    duration := parseFloatJs e.dur
    offset := parseFloatJs e.start }

/-- Blockwise concatenation of per-character encodings. -/
def concatMap (g : Char → List Char) : List Char → List Char
  | [] => []
  | c :: cs => g c ++ concatMap g cs

/-- The characters covered by the named-entity table (the characters
appearing as replacement values). -/
def coveredChars : List Char := ['&', '<', '>', '"', '\x27', '/', ' ']

/-- Encoder described by the specification's round-trip property: each
covered character is written as its (first) named reference from the table;
other characters are left alone.  This is a specification-side companion
definition (the repository contains no encoder), used only to state the
round-trip. -/
def encodeChar (c : Char) : List Char :=
  if c = '&' then "&amp;".data
  else if c = '<' then "&lt;".data
  else if c = '>' then "&gt;".data
  else if c = '"' then "&quot;".data
  else if c = '\x27' then "&#39;".data
  else if c = '/' then "&#x2F;".data
  else if c = ' ' then "&#32;".data
  else [c]

/-- Specification-side encoder over strings (see `encodeChar`). -/
def encodeNamedEntities (s : String) : String :=
  String.mk (concatMap encodeChar s.data)

/-- One table substitution applied to a per-character encoding: the block
equal to the pattern becomes the replacement, other blocks are untouched. -/
def gStep (key rep : List Char) (g : Char → List Char) : Char → List Char :=
  fun c => if g c = key then rep else g c

/-- Decidable check that a block can never host or start a match of `key`:
at every offset into the block there is a mismatch with `key` inside the
block itself. -/
def blockSafeB (key b : List Char) : Bool :=
  (List.range b.length).all fun j =>
    (List.range key.length).any fun i =>
      decide (j + i < b.length) && decide (key[i]? ≠ b[j + i]?)

/-- Occurrence of a decimal character reference anywhere in the text. -/
def hasDecRef : List Char → Bool
  | [] => false
  | l@(_ :: rest) => (decMatchAt l).isSome || hasDecRef rest

/-- Occurrence of a hexadecimal character reference anywhere in the text. -/
def hasHexRef : List Char → Bool
  | [] => false
  | l@(_ :: rest) => (hexMatchAt l).isSome || hasHexRef rest

/-- Occurrence of any character reference the decoder reacts to: a table
entity as a substring, or a decimal or hexadecimal reference.  This is the
formalisation of the specification's "plain, already-decoded text": a string
for which this is `false` contains no character references. -/
def hasAnyRef (s : String) : Bool :=
  entityTable.any (fun p => hasSub s.data p.1) ||
  hasDecRef s.data || hasHexRef s.data

/-- A video-page body whose only relevant feature is the bot-challenge
marker `class="g-recaptcha"`. -/
def rlBody : String := "<html class=\"g-recaptcha\">x</html>"

/-- Environment in which every page fetch returns the bot-challenge page. -/
def envRL : Env :=
  { page := fun _ => .ok { status := 200, text := rlBody }
    captionPayload := fun _ _ => .thrown (.generic "Error" "net")
    jsonParse := fun _ => .error (.generic "SyntaxError" "bad") }

/-- A caption track in Korean, not machine generated. -/
def koTrack : CaptionTrack :=
  { baseUrl := "https://cap", languageCode := "ko", name := none, kind := none }

/-- A healthy video-page body: title, author, publish date, duration,
playability marker and a captions block (`CAPS01`) followed by
`,"videoDetails`. -/
def bodyA : String :=
  "<title>Test Video - YouTube</title>\"author\":\"Chan\" \"publishDate\":\"2024-01-01\" \"lengthSeconds\":\"120\" \"playabilityStatus\":x \"captions\":CAPS01,\"videoDetailsZZZ"

/-- A caption payload with five well-formed elements. -/
def payloadA : String :=
  "<text start=\"0\" dur=\"1\">Hello &amp; welcome</text><text start=\"1\" dur=\"1\">to the</text><text start=\"2\" dur=\"1\">&quot;show&quot;</text><text start=\"3\" dur=\"1\">number</text><text start=\"4\" dur=\"1\">five</text>"

/-- End-to-end scenario A: page fetch succeeds, one `ko` track, payload has
five valid elements. -/
def envA : Env :=
  { page := fun _ => .ok { status := 200, text := bodyA }
    captionPayload := fun _ url =>
      if url = "https://cap" then .ok { status := 200, text := payloadA }
      else .thrown (.generic "Error" "wrong url")
    jsonParse := fun s =>
      if s = "CAPS01" then .ok (some { captionTracks := some [koTrack] })
      else .error (.generic "SyntaxError" "bad json") }

/-- Like scenario A, but the caption payload is empty on every attempt, so
every parse yields zero segments. -/
def envE : Env :=
  { page := fun _ => .ok { status := 200, text := bodyA }
    captionPayload := fun _ url =>
      if url = "https://cap" then .ok { status := 200, text := "" }
      else .thrown (.generic "Error" "wrong url")
    jsonParse := fun s =>
      if s = "CAPS01" then .ok (some { captionTracks := some [koTrack] })
      else .error (.generic "SyntaxError" "bad json") }

/-- Environment in which every page fetch throws a plain network error (a
retryable transient failure on every attempt). -/
def envGen : Env :=
  { page := fun _ => .thrown (.generic "Error" "net down")
    captionPayload := fun _ _ => .thrown (.generic "Error" "net down")
    jsonParse := fun _ => .error (.generic "SyntaxError" "bad") }

/-- A payload with one element whose numeric attribute does not parse
(`start="abc"`) followed by one fully well-formed element. -/
def payloadMixed : String :=
  "<text start=\"abc\" dur=\"1\">bad</text><text start=\"0\" dur=\"1\">good</text>"

/-- The per-character encoding after each successive table pass: pass `n`
replaces the block equal to its pattern by the decoded character. -/
def encStep1 : Char → List Char := gStep "&amp;".data "&".data encodeChar

def encStep2 : Char → List Char := gStep "&lt;".data "<".data encStep1

def encStep3 : Char → List Char := gStep "&gt;".data ">".data encStep2

def encStep4 : Char → List Char := gStep "&quot;".data "\"".data encStep3

def encStep5 : Char → List Char := gStep "&#39;".data "\x27".data encStep4

def encStep6 : Char → List Char := gStep "&apos;".data "\x27".data encStep5

def encStep7 : Char → List Char := gStep "&#x27;".data "\x27".data encStep6

def encStep8 : Char → List Char := gStep "&#x2F;".data "/".data encStep7

def encStep9 : Char → List Char := gStep "&#32;".data " ".data encStep8

def encStep10 : Char → List Char := gStep "&nbsp;".data " ".data encStep9

/-!
## Helper lemmas
-/

theorem litPrefix_nil (l : List Char) : litPrefix [] l = true := by
  cases l <;> rfl

theorem litPrefix_append_self (p t : List Char) : litPrefix p (p ++ t) = true := by
  induction p with
  | nil => exact litPrefix_nil t
  | cons c cs ih => simp [litPrefix, ih]

theorem litPrefix_eq_true_iff (p l : List Char) :
    litPrefix p l = true ↔ l.take p.length = p := by
  induction p generalizing l with
  | nil => simp [litPrefix_nil]
  | cons c cs ih =>
    cases l with
    | nil => simp [litPrefix]
    | cons d ds =>
      simp only [litPrefix, List.length_cons, List.take_succ_cons, Bool.and_eq_true,
        decide_eq_true_eq, List.cons.injEq, ih]
      constructor
      · rintro ⟨h1, h2⟩; exact ⟨h1.symm, h2⟩
      · rintro ⟨h1, h2⟩; exact ⟨h1.symm, h2⟩

/-- A mismatch inside the compared region refutes `litPrefix`, whatever the
continuation `t` is. -/
theorem litPrefix_eq_false_of_mismatch (p b t : List Char) (i : Nat)
    (hip : i < p.length) (hib : i < b.length) (hne : p[i]? ≠ b[i]?) :
    litPrefix p (b ++ t) = false := by
  by_contra h
  have h' : litPrefix p (b ++ t) = true := by
    cases hpt : litPrefix p (b ++ t) with
    | false => exact absurd hpt h
    | true => rfl
  rw [litPrefix_eq_true_iff] at h'
  apply hne
  have hbt : (b ++ t)[i]? = b[i]? := List.getElem?_append_left hib
  have hstep : p[i]? = ((b ++ t).take p.length)[i]? := by rw [h']
  rw [List.getElem?_take_of_lt hip] at hstep
  rw [hstep, hbt]

theorem takeWhile_append_all {p : Char → Bool} (a b : List Char)
    (h : ∀ c ∈ a, p c = true) :
    (a ++ b).takeWhile p = a ++ b.takeWhile p := by
  induction a with
  | nil => simp
  | cons c a' ih =>
    have hc := h c (by simp)
    simp only [List.cons_append, List.takeWhile_cons, hc, if_true]
    rw [ih (fun x hx => h x (by simp [hx]))]

theorem takeWhile_cons_of_neg {p : Char → Bool} (c : Char) (l : List Char)
    (h : p c = false) : (c :: l).takeWhile p = [] := by
  simp [List.takeWhile_cons, h]

theorem replGo_skip (pat rep : List Char) (skip : Nat) (l : List Char) :
    replGo pat rep skip l = replGo pat rep 0 (l.drop skip) := by
  induction l generalizing skip with
  | nil => cases skip <;> rfl
  | cons c rest ih =>
    cases skip with
    | zero => rfl
    | succ k => simpa using ih k

theorem replGo_cons_nomatch (pat rep : List Char) (c : Char) (l : List Char)
    (h : litPrefix pat (c :: l) = false) :
    replGo pat rep 0 (c :: l) = c :: replGo pat rep 0 l := by
  simp [replGo, h]

theorem replGo_match_head (p : Char) (ps rep t : List Char) :
    replGo (p :: ps) rep 0 ((p :: ps) ++ t) = rep ++ replGo (p :: ps) rep 0 t := by
  have hpre : litPrefix (p :: ps) (p :: (ps ++ t)) = true := by
    simpa using litPrefix_append_self (p :: ps) t
  show replGo (p :: ps) rep 0 (p :: (ps ++ t)) = _
  simp only [replGo, hpre, if_true]
  rw [replGo_skip]
  simp [List.drop_left]

theorem replGo_walk (pat rep b t : List Char)
    (h : ∀ j, j < b.length → litPrefix pat (b.drop j ++ t) = false) :
    replGo pat rep 0 (b ++ t) = b ++ replGo pat rep 0 t := by
  induction b with
  | nil => simp
  | cons c b' ih =>
    have h0 : litPrefix pat ((c :: b') ++ t) = false := by
      simpa using h 0 (by simp)
    rw [List.cons_append, replGo_cons_nomatch pat rep c (b' ++ t) h0]
    rw [ih (fun j hj => by simpa using h (j + 1) (by simpa using hj))]
    rfl

theorem hasSub_cons (c : Char) (l pat : List Char) :
    hasSub (c :: l) pat = (litPrefix pat (c :: l) || hasSub l pat) := rfl

theorem replGo_id_of_no_sub (pat rep l : List Char)
    (h : hasSub l pat = false) :
    replGo pat rep 0 l = l := by
  induction l with
  | nil => rfl
  | cons c rest ih =>
    rw [hasSub_cons, Bool.or_eq_false_iff] at h
    rw [replGo_cons_nomatch pat rep c rest h.1, ih h.2]

theorem hasSub_eq_false_of_no_head (p : Char) (ps l : List Char)
    (h : ∀ c ∈ l, c ≠ p) : hasSub l (p :: ps) = false := by
  induction l with
  | nil => rfl
  | cons c rest ih =>
    rw [hasSub_cons, Bool.or_eq_false_iff]
    refine ⟨?_, ih (fun x hx => h x (by simp [hx]))⟩
    have hc : c ≠ p := h c (by simp)
    simp [litPrefix, Ne.symm hc]

theorem decPassGo_skip (skip : Nat) (l : List Char) :
    decPassGo skip l = decPassGo 0 (l.drop skip) := by
  induction l generalizing skip with
  | nil => cases skip <;> rfl
  | cons c rest ih =>
    cases skip with
    | zero => rfl
    | succ k => simpa using ih k

theorem decPassGo_id_of_no_ref (l : List Char) (h : hasDecRef l = false) :
    decPassGo 0 l = l := by
  induction l with
  | nil => rfl
  | cons c rest ih =>
    have h' : (decMatchAt (c :: rest)).isSome = false ∧ hasDecRef rest = false := by
      have := h
      rw [show hasDecRef (c :: rest) =
        ((decMatchAt (c :: rest)).isSome || hasDecRef rest) from rfl,
        Bool.or_eq_false_iff] at this
      exact this
    have hnone : decMatchAt (c :: rest) = none := by
      cases hm : decMatchAt (c :: rest) with
      | none => rfl
      | some v => rw [hm] at h'; simp at h'
    rw [show decPassGo 0 (c :: rest) =
      (match decMatchAt (c :: rest) with
       | some (n, len) => fromCharCode n :: decPassGo (len - 1) rest
       | none => c :: decPassGo 0 rest) from rfl, hnone]
    rw [ih h'.2]

theorem hexPassGo_skip (skip : Nat) (l : List Char) :
    hexPassGo skip l = hexPassGo 0 (l.drop skip) := by
  induction l generalizing skip with
  | nil => cases skip <;> rfl
  | cons c rest ih =>
    cases skip with
    | zero => rfl
    | succ k => simpa using ih k

theorem hexPassGo_id_of_no_ref (l : List Char) (h : hasHexRef l = false) :
    hexPassGo 0 l = l := by
  induction l with
  | nil => rfl
  | cons c rest ih =>
    have h' : (hexMatchAt (c :: rest)).isSome = false ∧ hasHexRef rest = false := by
      have := h
      rw [show hasHexRef (c :: rest) =
        ((hexMatchAt (c :: rest)).isSome || hasHexRef rest) from rfl,
        Bool.or_eq_false_iff] at this
      exact this
    have hnone : hexMatchAt (c :: rest) = none := by
      cases hm : hexMatchAt (c :: rest) with
      | none => rfl
      | some v => rw [hm] at h'; simp at h'
    rw [show hexPassGo 0 (c :: rest) =
      (match hexMatchAt (c :: rest) with
       | some (n, len) => fromCharCode n :: hexPassGo (len - 1) rest
       | none => c :: hexPassGo 0 rest) from rfl, hnone]
    rw [ih h'.2]

/-- No decimal reference can occur in a text without `#`. -/
theorem hasDecRef_eq_false_of_no_hash (l : List Char) (h : ∀ c ∈ l, c ≠ '#') :
    hasDecRef l = false := by
  induction l with
  | nil => rfl
  | cons c rest ih =>
    rw [show hasDecRef (c :: rest) =
      ((decMatchAt (c :: rest)).isSome || hasDecRef rest) from rfl,
      Bool.or_eq_false_iff]
    refine ⟨?_, ih (fun x hx => h x (by simp [hx]))⟩
    have hnomatch : litPrefix "&#".data (c :: rest) = false := by
      cases hc : decide (c = '&') with
      | false =>
        have hne : '&' ≠ c := fun hh => (of_decide_eq_false hc) hh.symm
        simp [show ("&#".data : List Char) = ['&', '#'] from rfl, litPrefix, hne]
      | true =>
        have hc' := of_decide_eq_true hc
        subst hc'
        cases rest with
        | nil => rfl
        | cons d rest' =>
          have hd : d ≠ '#' := h d (by simp)
          simp [show ("&#".data : List Char) = ['&', '#'] from rfl, litPrefix,
            Ne.symm hd]
    simp [decMatchAt, hnomatch]

/-- No hexadecimal reference can occur in a text without `#`. -/
theorem hasHexRef_eq_false_of_no_hash (l : List Char) (h : ∀ c ∈ l, c ≠ '#') :
    hasHexRef l = false := by
  induction l with
  | nil => rfl
  | cons c rest ih =>
    rw [show hasHexRef (c :: rest) =
      ((hexMatchAt (c :: rest)).isSome || hasHexRef rest) from rfl,
      Bool.or_eq_false_iff]
    refine ⟨?_, ih (fun x hx => h x (by simp [hx]))⟩
    have hnomatch : litPrefix "&#x".data (c :: rest) = false := by
      cases hc : decide (c = '&') with
      | false =>
        have hne : '&' ≠ c := fun hh => (of_decide_eq_false hc) hh.symm
        simp [show ("&#x".data : List Char) = ['&', '#', 'x'] from rfl, litPrefix, hne]
      | true =>
        have hc' := of_decide_eq_true hc
        subst hc'
        cases rest with
        | nil => rfl
        | cons d rest' =>
          have hd : d ≠ '#' := h d (by simp)
          simp [show ("&#x".data : List Char) = ['&', '#', 'x'] from rfl, litPrefix,
            Ne.symm hd]
    simp [hexMatchAt, hnomatch]

theorem findExactLoop_nil_tracks (prefs : List String) :
    findExactLoop prefs [] = none := by
  induction prefs with
  | nil => rfl
  | cons q rest ih => simpa [findExactLoop] using ih

theorem findPrefixLoop_nil_tracks (prefs : List String) :
    findPrefixLoop prefs [] = none := by
  induction prefs with
  | nil => rfl
  | cons q rest ih => simpa [findPrefixLoop] using ih

theorem findExactLoop_append (pre rest : List String) (tracks : List CaptionTrack)
    (h : ∀ q ∈ pre, tracks.find? (fun t => t.languageCode == q) = none) :
    findExactLoop (pre ++ rest) tracks = findExactLoop rest tracks := by
  induction pre with
  | nil => rfl
  | cons q pre' ih =>
    rw [show findExactLoop ((q :: pre') ++ rest) tracks =
      (match tracks.find? (fun t => t.languageCode == q) with
       | some t => some t
       | none => findExactLoop (pre' ++ rest) tracks) from rfl, h q (by simp)]
    exact ih (fun x hx => h x (by simp [hx]))

theorem findPrefixLoop_append (pre rest : List String) (tracks : List CaptionTrack)
    (h : ∀ q ∈ pre, tracks.find? (fun t => t.languageCode.startsWith q) = none) :
    findPrefixLoop (pre ++ rest) tracks = findPrefixLoop rest tracks := by
  induction pre with
  | nil => rfl
  | cons q pre' ih =>
    rw [show findPrefixLoop ((q :: pre') ++ rest) tracks =
      (match tracks.find? (fun t => t.languageCode.startsWith q) with
       | some t => some t
       | none => findPrefixLoop (pre' ++ rest) tracks) from rfl, h q (by simp)]
    exact ih (fun x hx => h x (by simp [hx]))

theorem findExactLoop_eq_none_of_all (prefs : List String) (tracks : List CaptionTrack)
    (h : ∀ q ∈ prefs, tracks.find? (fun t => t.languageCode == q) = none) :
    findExactLoop prefs tracks = none := by
  have := findExactLoop_append prefs [] tracks h
  simpa [findExactLoop] using this

theorem findPrefixLoop_eq_none_of_all (prefs : List String) (tracks : List CaptionTrack)
    (h : ∀ q ∈ prefs, tracks.find? (fun t => t.languageCode.startsWith q) = none) :
    findPrefixLoop prefs tracks = none := by
  have := findPrefixLoop_append prefs [] tracks h
  simpa [findPrefixLoop] using this

/-- C3.  `findBestCaptionTrack` implements the specified tie-break policy:
(1) it returns `none` exactly when the track list is empty; (2) with
preferences as the outer loop, the first preference having an exact
language-code match wins, and the result is the first such track — so an
exact match (in any preference) beats every prefix match; (3) only when no
preference has an exact match, the first preference having a prefix match
wins, and the result is the first such track; (4) when neither loop hits,
the first non-machine-generated track (`kind !== 'asr'`) is returned if one
exists, and otherwise the first track of the list. -/
theorem findBestCaptionTrack_spec (tracks : List CaptionTrack) (prefs : List String) :
    (findBestCaptionTrack tracks prefs = none ↔ tracks = [])
    ∧ (∀ pre p post, prefs = pre ++ p :: post →
        (∀ q ∈ pre, tracks.find? (fun t => t.languageCode == q) = none) →
        ∀ t, tracks.find? (fun t => t.languageCode == p) = some t →
        findBestCaptionTrack tracks prefs = some t)
    ∧ ((∀ q ∈ prefs, tracks.find? (fun t => t.languageCode == q) = none) →
        ∀ pre p post, prefs = pre ++ p :: post →
        (∀ q ∈ pre, tracks.find? (fun t => t.languageCode.startsWith q) = none) →
        ∀ t, tracks.find? (fun t => t.languageCode.startsWith p) = some t →
        findBestCaptionTrack tracks prefs = some t)
    ∧ ((∀ q ∈ prefs, tracks.find? (fun t => t.languageCode == q) = none) →
        (∀ q ∈ prefs, tracks.find? (fun t => t.languageCode.startsWith q) = none) →
        findBestCaptionTrack tracks prefs =
          match tracks.find? (fun t => t.kind != some "asr") with
          | some t => some t
          | none => tracks.head?) := by
  refine ⟨?_, ?_, ?_, ?_⟩
  · constructor
    · intro h
      cases tracks with
      | nil => rfl
      | cons t ts =>
        exfalso
        unfold findBestCaptionTrack at h
        cases hex : findExactLoop prefs (t :: ts) with
        | some u => rw [hex] at h; exact absurd h (by simp)
        | none =>
          rw [hex] at h
          cases hpre : findPrefixLoop prefs (t :: ts) with
          | some u => rw [hpre] at h; exact absurd h (by simp)
          | none =>
            rw [hpre] at h
            cases hk : (t :: ts).find? (fun t => t.kind != some "asr") with
            | some u => rw [hk] at h; exact absurd h (by simp)
            | none => rw [hk] at h; exact absurd h (by simp)
    · intro h
      subst h
      simp [findBestCaptionTrack, findExactLoop_nil_tracks, findPrefixLoop_nil_tracks]
  · intro pre p post hp hpre t ht
    subst hp
    unfold findBestCaptionTrack
    rw [findExactLoop_append pre (p :: post) tracks hpre,
      show findExactLoop (p :: post) tracks =
        (match tracks.find? (fun t => t.languageCode == p) with
         | some t => some t
         | none => findExactLoop post tracks) from rfl, ht]
  · intro hall pre p post hp hpre t ht
    subst hp
    unfold findBestCaptionTrack
    rw [findExactLoop_eq_none_of_all _ _ hall,
      findPrefixLoop_append pre (p :: post) tracks hpre,
      show findPrefixLoop (p :: post) tracks =
        (match tracks.find? (fun t => t.languageCode.startsWith p) with
         | some t => some t
         | none => findPrefixLoop post tracks) from rfl, ht]
  · intro hex hpre
    unfold findBestCaptionTrack
    rw [findExactLoop_eq_none_of_all _ _ hex, findPrefixLoop_eq_none_of_all _ _ hpre]

/-- Witness for C3: the specification's own example — tracks
`[{en-US, asr}, {ko, manual}]` with preferences `["ko", "en"]` select the
`ko` track through the exact-match clause. -/
theorem findBestCaptionTrack_spec_witness :
    findBestCaptionTrack
      [{ baseUrl := "u1", languageCode := "en-US", name := none, kind := some "asr" },
       koTrack] ["ko", "en"] = some koTrack := by
  have h := (findBestCaptionTrack_spec
    [{ baseUrl := "u1", languageCode := "en-US", name := none, kind := some "asr" },
     koTrack] ["ko", "en"]).2.1 [] "ko" ["en"] rfl (by intro q hq; cases hq)
    koTrack (by decide)
  exact h

theorem strMkData (s : String) : String.mk s.data = s := rfl

theorem xmlScanGo_skip (skip : Nat) (l : List Char) :
    xmlScanGo skip l = xmlScanGo 0 (l.drop skip) := by
  induction l generalizing skip with
  | nil => cases skip <;> rfl
  | cons c rest ih =>
    cases skip with
    | zero => rfl
    | succ k => simpa using ih k

theorem xmlScanGo_cons_none (c : Char) (rest : List Char)
    (h : xmlMatchAt (c :: rest) = none) :
    xmlScanGo 0 (c :: rest) = xmlScanGo 0 rest := by
  simp [xmlScanGo, h]

theorem xmlScanGo_cons_some (c : Char) (rest g1 g2 g3 : List Char) (len : Nat)
    (h : xmlMatchAt (c :: rest) = some (g1, g2, g3, len)) :
    xmlScanGo 0 (c :: rest) = (g1, g2, g3) :: xmlScanGo (len - 1) rest := by
  simp [xmlScanGo, h]

theorem matchLitCap_cons_nomatch (lit : List Char) (cls : Char → Bool)
    (l : List Char) (h : litPrefix lit l = false) :
    matchLitCap lit cls l = none := by
  simp [matchLitCap, h]

theorem xmlScanGo_walk (n t : List Char) (h : ∀ c ∈ n, c ≠ '<') :
    xmlScanGo 0 (n ++ t) = xmlScanGo 0 t := by
  induction n with
  | nil => simp
  | cons c n' ih =>
    have hc : c ≠ '<' := h c (by simp)
    have hlit : litPrefix "<text start=\"".data (c :: (n' ++ t)) = false := by
      simp [show ("<text start=\"".data : List Char) =
        '<' :: "text start=\"".data from rfl, litPrefix, Ne.symm hc]
    have hm : xmlMatchAt (c :: (n' ++ t)) = none := by
      unfold xmlMatchAt
      rw [matchLitCap_cons_nomatch _ _ _ hlit]
    rw [List.cons_append, xmlScanGo_cons_none c (n' ++ t) hm]
    exact ih (fun x hx => h x (by simp [hx]))

/-- The serialised element decomposed into its literal pieces. -/
theorem xmlElement_data (e : RawElement) :
    (xmlElement e).data =
      "<text start=\"".data ++ e.start.data ++ "\" dur=\"".data ++ e.dur.data ++
      "\">".data ++ e.content.data ++ "</text>".data := by
  simp [xmlElement, String.data_append]

theorem matchLitCap_concat (lit a stopLit z : List Char) (cls : Char → Bool)
    (stop : Char) (stopTail : List Char) (hsl : stopLit = stop :: stopTail)
    (ha : ∀ c ∈ a, cls c = true) (hstop : cls stop = false) :
    matchLitCap lit cls (lit ++ (a ++ (stopLit ++ z))) = some (a, stopLit ++ z) := by
  subst hsl
  unfold matchLitCap
  rw [litPrefix_append_self, if_pos rfl, List.drop_left]
  dsimp only
  rw [takeWhile_append_all _ _ ha, List.cons_append,
    takeWhile_cons_of_neg _ _ hstop, List.append_nil]
  rw [show (a ++ (stop :: (stopTail ++ z))).drop a.length = stop :: (stopTail ++ z)
    from List.drop_left _ _]

theorem xmlMatchAt_element (e : RawElement) (rest : List Char)
    (hs : ∀ c ∈ e.start.data, c ≠ '"')
    (hd : ∀ c ∈ e.dur.data, c ≠ '"')
    (hc : ∀ c ∈ e.content.data, c ≠ '<') :
    xmlMatchAt ((xmlElement e).data ++ rest) =
      some (e.start.data, e.dur.data, e.content.data, (xmlElement e).data.length) := by
  have h1 := matchLitCap_concat "<text start=\"".data e.start.data "\" dur=\"".data
    (e.dur.data ++ ("\">".data ++ (e.content.data ++ ("</text>".data ++ rest))))
    (fun c => c ≠ '"') '"' " dur=\"".data rfl
    (fun c hcm => by simpa using hs c hcm) (by decide)
  have h2 := matchLitCap_concat "\" dur=\"".data e.dur.data "\">".data
    (e.content.data ++ ("</text>".data ++ rest))
    (fun c => c ≠ '"') '"' ">".data rfl
    (fun c hcm => by simpa using hd c hcm) (by decide)
  have h3 := matchLitCap_concat "\">".data e.content.data "</text>".data rest
    (fun c => c ≠ '<') '<' "/text>".data rfl
    (fun c hcm => by simpa using hc c hcm) (by decide)
  have hshape : (xmlElement e).data ++ rest =
      "<text start=\"".data ++ (e.start.data ++ ("\" dur=\"".data ++ (e.dur.data ++
        ("\">".data ++ (e.content.data ++ ("</text>".data ++ rest)))))) := by
    rw [xmlElement_data]; simp
  rw [hshape]
  unfold xmlMatchAt
  rw [h1]
  simp only
  rw [h2]
  simp only
  rw [h3]
  simp only
  rw [litPrefix_append_self, if_pos rfl]
  rw [xmlElement_data]
  simp [List.length_append]
  omega

theorem xmlScanGo_element (e : RawElement) (rest : List Char)
    (hs : ∀ c ∈ e.start.data, c ≠ '"')
    (hd : ∀ c ∈ e.dur.data, c ≠ '"')
    (hc : ∀ c ∈ e.content.data, c ≠ '<') :
    xmlScanGo 0 ((xmlElement e).data ++ rest) =
      (e.start.data, e.dur.data, e.content.data) :: xmlScanGo 0 rest := by
  have hm := xmlMatchAt_element e rest hs hd hc
  have hdecomp : (xmlElement e).data =
      '<' :: ("text start=\"".data ++ e.start.data ++ "\" dur=\"".data ++
        e.dur.data ++ "\">".data ++ e.content.data ++ "</text>".data) := by
    rw [xmlElement_data]
    simp
  have hlen : (xmlElement e).data.length =
      ("text start=\"".data ++ e.start.data ++ "\" dur=\"".data ++ e.dur.data ++
        "\">".data ++ e.content.data ++ "</text>".data).length + 1 := by
    rw [hdecomp]
    simp
  rw [hdecomp] at hm ⊢
  rw [List.cons_append] at hm ⊢
  rw [xmlScanGo_cons_some _ _ _ _ _ _ hm, xmlScanGo_skip]
  rw [show ('<' :: ("text start=\"".data ++ e.start.data ++ "\" dur=\"".data ++
      e.dur.data ++ "\">".data ++ e.content.data ++ "</text>".data)).length - 1 =
      ("text start=\"".data ++ e.start.data ++ "\" dur=\"".data ++ e.dur.data ++
      "\">".data ++ e.content.data ++ "</text>".data).length by simp]
  rw [List.drop_left]

/-- C4 (amended).  `parse` returns, in source order, one segment for every
element matching the fixed regex shape (`start` before `dur`, text without a
`<`): for a payload interleaving such elements with arbitrary markup noise
(not containing `<`), the result is exactly the elements' segments in order —
including elements whose numeric attribute text does not parse, which are NOT
skipped but carried with NaN offset/duration; a payload with no matching
element (the empty element list) yields the empty sequence, not a failure. -/
theorem parseTranscriptXML_elements (es : List RawElement) (tail : String)
    (hn : ∀ e ∈ es, ∀ c ∈ e.noise.data, c ≠ '<')
    (htail : ∀ c ∈ tail.data, c ≠ '<')
    (hs : ∀ e ∈ es, ∀ c ∈ e.start.data, c ≠ '"')
    (hd : ∀ e ∈ es, ∀ c ∈ e.dur.data, c ≠ '"')
    (hc : ∀ e ∈ es, ∀ c ∈ e.content.data, c ≠ '<') :
    parseTranscriptXML (assemblePayload es tail) = es.map segmentOf := by
  induction es with
  | nil =>
    show (xmlScanGo 0 tail.data).map _ = []
    have h0 : xmlScanGo 0 tail.data = [] := by
      have := xmlScanGo_walk tail.data [] htail
      simpa using this
    rw [h0]
    rfl
  | cons e es' ih =>
    have hdata : (assemblePayload (e :: es') tail).data =
        e.noise.data ++ ((xmlElement e).data ++ (assemblePayload es' tail).data) := by
      show (e.noise ++ xmlElement e ++ assemblePayload es' tail).data = _
      simp [String.data_append]
    show (xmlScanGo 0 (assemblePayload (e :: es') tail).data).map _ = _
    rw [hdata,
      xmlScanGo_walk _ _ (fun c hcm => hn e (by simp) c hcm),
      xmlScanGo_element e _ (fun c hcm => hs e (by simp) c hcm)
        (fun c hcm => hd e (by simp) c hcm) (fun c hcm => hc e (by simp) c hcm),
      List.map_cons]
    have ih' := ih (fun x hx => hn x (by simp [hx])) (fun x hx => hs x (by simp [hx]))
      (fun x hx => hd x (by simp [hx])) (fun x hx => hc x (by simp [hx]))
    rw [show (xmlScanGo 0 (assemblePayload es' tail).data).map
        (fun m => ({ offset := parseFloatJs (String.mk m.1)
                     duration := parseFloatJs (String.mk m.2.1)
                     text := String.mk m.2.2 } : TranscriptSegment)) =
      parseTranscriptXML (assemblePayload es' tail) from rfl, ih']
    rfl

/-- Counterexample for C4: in a payload with one well-formed element
(`good`) and one element whose `start` attribute is unparseable (`bad`), the
parser returns two segments, not one: the malformed element is included with
a NaN offset rather than skipped.  (An element with attributes in the other
order is, by contrast, skipped.) -/
theorem parseTranscriptXML_unparseable_included :
    (parseTranscriptXML payloadMixed).map (fun s => s.text) = ["bad", "good"]
    ∧ (parseTranscriptXML payloadMixed).map (fun s => s.offset.isNaN) = [true, false]
    ∧ (parseTranscriptXML payloadMixed).length ≠ 1
    ∧ parseTranscriptXML "<text dur=\"1\" start=\"0\">wrongorder</text>" = [] := by
  refine ⟨by decide, by decide, by decide, by decide⟩

/-- Witness for C4: a two-element payload with noise, the second element
carrying an unparseable duration, parses to exactly the two segments. -/
theorem parseTranscriptXML_elements_witness :
    parseTranscriptXML (assemblePayload
      [{ noise := "hdr ", start := "0.5", dur := "2", content := "ab" },
       { noise := " mid ", start := "1", dur := "oops", content := "cd" }] "tl") =
      [segmentOf { noise := "hdr ", start := "0.5", dur := "2", content := "ab" },
       segmentOf { noise := " mid ", start := "1", dur := "oops", content := "cd" }] := by
  exact parseTranscriptXML_elements
    [{ noise := "hdr ", start := "0.5", dur := "2", content := "ab" },
     { noise := " mid ", start := "1", dur := "oops", content := "cd" }] "tl"
    (by decide) (by decide) (by decide) (by decide) (by decide)

/-- C5 (amended).  `TranscriptDownloader.extractVideoId` accepts an input
that is already exactly (with no trimming applied) an 11-character token
over the identifier alphabet, returning it directly before any URL-shape
matching; an input that becomes such a token only after trimming is not
accepted, and `VideoIdExtractor.extract` has no direct-acceptance branch at
all (see the counterexample). -/
theorem extractVideoId_bare_token (s : String) (hlen : s.length = 11)
    (halpha : s.data.all isIdChar = true) :
    extractVideoId s = some s := by
  unfold extractVideoId
  rw [if_pos]
  rw [hlen, halpha]
  decide

/-- Witness for C5: a concrete bare identifier is returned unchanged, and a
version of it that is bare only after trimming is rejected. -/
theorem extractVideoId_bare_token_witness :
    extractVideoId "dQw4w9WgXcQ" = some "dQw4w9WgXcQ"
    ∧ extractVideoId " dQw4w9WgXcQ" = none := by
  exact ⟨extractVideoId_bare_token "dQw4w9WgXcQ" (by decide) (by decide), by decide⟩

/-- Counterexample for C5: the trimmed input `dQw4w9WgXcQ` is exactly an
11-character identifier-alphabet token, yet `VideoIdExtractor.extract` does
not accept it — it throws `VideoIdNotFoundError` because none of its four
URL-shape patterns matches a bare identifier. -/
theorem extract_rejects_bare_token :
    VideoIdExtractor.extract "dQw4w9WgXcQ" =
      .error (.videoIdNotFound "Could not extract video ID from URL: dQw4w9WgXcQ")
    ∧ ("dQw4w9WgXcQ" : String).length = 11
    ∧ ("dQw4w9WgXcQ" : String).data.all isIdChar = true := by
  refine ⟨by decide, by decide, by decide⟩

theorem failureIsTranscriptNotFound_final (mr : Nat) (le : Option JsError)
    (sleeps : List Nat) :
    failureIsTranscriptNotFound (finalFailure mr le, sleeps) = true := by
  cases le with
  | none => rfl
  | some e => rfl

theorem downloadGo_failure_class (env : Env) (mr : Nat) (langs : List String) :
    ∀ remaining attempt lastErr sleeps,
      failureIsTranscriptNotFound
        (downloadGo env mr langs remaining attempt lastErr sleeps) = true := by
  intro remaining
  induction remaining with
  | zero =>
    intro attempt lastErr sleeps
    exact failureIsTranscriptNotFound_final mr lastErr sleeps
  | succ rem ih =>
    intro attempt lastErr sleeps
    rw [show downloadGo env mr langs (rem + 1) attempt lastErr sleeps =
      (match attemptOnce env langs attempt with
       | .ok r => (.ok r, sleeps)
       | .error e =>
         if e.isTranscriptNotFound then (.error e, sleeps)
         else if rem = 0 then (finalFailure mr (some e), sleeps)
         else downloadGo env mr langs rem (attempt + 1) (some e)
           (sleeps ++ [1000 * 2 ^ attempt])) from rfl]
    cases h : attemptOnce env langs attempt with
    | ok r => rfl
    | error e =>
      cases e with
      | tnfe m => rfl
      | videoIdNotFound m =>
        by_cases hrem : rem = 0
        · simp [JsError.isTranscriptNotFound, hrem,
            failureIsTranscriptNotFound_final]
        · simp [JsError.isTranscriptNotFound, hrem, ih]
      | generic nm m =>
        by_cases hrem : rem = 0
        · simp [JsError.isTranscriptNotFound, hrem,
            failureIsTranscriptNotFound_final]
        · simp [JsError.isTranscriptNotFound, hrem, ih]

/-- C10.  Every failure path of `download` throws the single exception class
`TranscriptNotFoundError`: for every environment, retry budget and language
preference, a failing run surfaces a `TranscriptNotFoundError` — rate
limiting, unavailable video, disabled captions, caption-data parse failure,
missing language match, non-200 payload, empty transcript and retry
exhaustion are distinguishable by message text only, never by error class. -/
theorem download_single_error_class (env : Env) (mr : Nat) (langs : List String) :
    failureIsTranscriptNotFound (download env mr langs) = true :=
  downloadGo_failure_class env mr langs mr 0 none []

/-- C7.  With `maxRetries = 3` and every attempt failing with a retryable
transient error (a plain `Error`, the only kind the catch block retries),
the backoff sleeps performed before the final failure are exactly
`1000 * 2 ^ 0 = 1000` ms and `1000 * 2 ^ 1 = 2000` ms — 3 s in total, slept
only between attempts, with no sleep after the final attempt — and the final
failure is the retry-exhaustion `TranscriptNotFoundError`. -/
theorem download_backoff_total (env : Env) (langs : List String)
    (h : ∀ n, ∃ nm m, attemptOnce env langs n = .error (.generic nm m)) :
    (download env 3 langs).2 = [1000, 2000]
    ∧ (download env 3 langs).2.sum = 3000
    ∧ ∃ msg, (download env 3 langs).1 = .error (.tnfe msg) := by
  obtain ⟨n0, m0, h0⟩ := h 0
  obtain ⟨n1, m1, h1⟩ := h 1
  obtain ⟨n2, m2, h2⟩ := h 2
  have step1 : download env 3 langs =
      downloadGo env 3 langs 2 1 (some (.generic n0 m0)) [1000] := by
    show downloadGo env 3 langs (2 + 1) 0 none [] = _
    rw [show downloadGo env 3 langs (2 + 1) 0 none [] =
      (match attemptOnce env langs 0 with
       | .ok r => (.ok r, [])
       | .error e =>
         if e.isTranscriptNotFound then (.error e, [])
         else if (2 : Nat) = 0 then (finalFailure 3 (some e), [])
         else downloadGo env 3 langs 2 1 (some e) ([] ++ [1000 * 2 ^ 0]))
      from rfl, h0]
    norm_num [JsError.isTranscriptNotFound]
  have step2 : downloadGo env 3 langs 2 1 (some (.generic n0 m0)) [1000] =
      downloadGo env 3 langs 1 2 (some (.generic n1 m1)) [1000, 2000] := by
    rw [show downloadGo env 3 langs (1 + 1) 1 (some (.generic n0 m0)) [1000] =
      (match attemptOnce env langs 1 with
       | .ok r => (.ok r, [1000])
       | .error e =>
         if e.isTranscriptNotFound then (.error e, [1000])
         else if (1 : Nat) = 0 then (finalFailure 3 (some e), [1000])
         else downloadGo env 3 langs 1 2 (some e) ([1000] ++ [1000 * 2 ^ 1]))
      from rfl, h1]
    norm_num [JsError.isTranscriptNotFound]
  have step3 : downloadGo env 3 langs 1 2 (some (.generic n1 m1)) [1000, 2000] =
      (finalFailure 3 (some (.generic n2 m2)), [1000, 2000]) := by
    rw [show downloadGo env 3 langs (0 + 1) 2 (some (.generic n1 m1)) [1000, 2000] =
      (match attemptOnce env langs 2 with
       | .ok r => (.ok r, [1000, 2000])
       | .error e =>
         if e.isTranscriptNotFound then (.error e, [1000, 2000])
         else if (0 : Nat) = 0 then (finalFailure 3 (some e), [1000, 2000])
         else downloadGo env 3 langs 0 3 (some e) ([1000, 2000] ++ [1000 * 2 ^ 2]))
      from rfl, h2]
    norm_num [JsError.isTranscriptNotFound]
  rw [step1, step2, step3]
  refine ⟨rfl, by norm_num, ?_⟩
  exact ⟨_, rfl⟩

/-- Witness for C7: in the environment whose page fetch throws a plain
network error on every attempt, the backoff sleeps are exactly 1 s and 2 s. -/
theorem download_backoff_total_witness :
    (download envGen 3 ["ko", "en"]).2 = [1000, 2000]
    ∧ (download envGen 3 ["ko", "en"]).2.sum = 3000
    ∧ ∃ msg, (download envGen 3 ["ko", "en"]).1 = .error (.tnfe msg) :=
  download_backoff_total envGen ["ko", "en"]
    (fun _ => ⟨"Error", "net down", rfl⟩)

/-- A `TranscriptNotFoundError` on the first attempt short-circuits the whole
retry loop: the catch block rethrows it immediately, with no backoff sleep
and no further attempts. -/
theorem download_tnfe_first_attempt (env : Env) (mr : Nat) (langs : List String)
    (hmr : 1 ≤ mr) (m : String)
    (hatt : attemptOnce env langs 0 = .error (.tnfe m)) :
    download env mr langs = (.error (.tnfe m), []) := by
  obtain ⟨k, hk⟩ : ∃ k, mr = k + 1 := ⟨mr - 1, by omega⟩
  subst hk
  show downloadGo env (k + 1) langs (k + 1) 0 none [] = _
  rw [show downloadGo env (k + 1) langs (k + 1) 0 none [] =
    (match attemptOnce env langs 0 with
     | .ok r => (.ok r, [])
     | .error e =>
       if e.isTranscriptNotFound then (.error e, [])
       else if k = 0 then (finalFailure (k + 1) (some e), [])
       else downloadGo env (k + 1) langs k 1 (some e) ([] ++ [1000 * 2 ^ 0]))
    from rfl, hatt]
  rfl

/-- C1 (amended).  When the fetched video page body contains the
bot-challenge marker, `download` fails immediately on the first attempt with
the single exception class `TranscriptNotFoundError`, carrying the
rate-limit message; it performs no retries and no backoff sleeps, and the
rate-limit condition is distinguishable only by that message, not by a
distinct error kind. -/
theorem download_rateLimited_no_retry (env : Env) (mr : Nat) (langs : List String)
    (hmr : 1 ≤ mr) (r : HttpResponse)
    (hp : env.page 0 = .ok r)
    (hmark : hasSub r.text.data "class=\"g-recaptcha\"".data = true) :
    download env mr langs =
      (.error (.tnfe "YouTube is receiving too many requests. Please try again later."),
        []) := by
  have hatt : attemptOnce env langs 0 =
      .error (.tnfe "YouTube is receiving too many requests. Please try again later.") := by
    unfold attemptOnce
    rw [hp]
    dsimp only
    rw [if_pos hmark]
  exact download_tnfe_first_attempt env mr langs hmr _ hatt

/-- Witness for C1's amended statement, at retry budget 1. -/
theorem download_rateLimited_no_retry_witness :
    download envRL 1 ["ko", "en"] =
      (.error (.tnfe "YouTube is receiving too many requests. Please try again later."),
        []) :=
  download_rateLimited_no_retry envRL 1 ["ko", "en"] (by decide)
    { status := 200, text := rlBody } rfl (by decide)

set_option maxRecDepth 10000 in
/-- Counterexample for C1: with the bot-challenge marker present on every
attempt and `maxRetries = 3`, `download` does NOT retry with backoff up to
the budget and does NOT surface a distinct non-TranscriptNotFound error: it
fails on the very first attempt, with an empty backoff-sleep list, throwing
`TranscriptNotFoundError`. -/
theorem download_rateLimited_cex :
    download envRL 3 ["ko", "en"] =
      (.error (.tnfe "YouTube is receiving too many requests. Please try again later."),
        [])
    ∧ hasSub rlBody.data "class=\"g-recaptcha\"".data = true := by
  refine ⟨by decide, by decide⟩

/-- C2 (amended).  An attempt whose caption payload parses to zero segments
(in particular an empty or whitespace-only payload body) is NOT treated as a
transient retryable failure: `download` throws
`TranscriptNotFoundError('Transcript is empty')` immediately on the first
attempt, with no backoff sleep, no further attempts, and no retry-exhaustion
error carrying an attempt count. -/
theorem download_emptyTranscript_no_retry (env : Env) (mr : Nat)
    (langs : List String) (hmr : 1 ≤ mr) (pr tr : HttpResponse)
    (tracks : List CaptionTrack) (track : CaptionTrack)
    (hp : env.page 0 = .ok pr)
    (hrc : hasSub pr.text.data "class=\"g-recaptcha\"".data = false)
    (hps : hasSub pr.text.data "\"playabilityStatus\":".data = true)
    (hsp : ¬ (splitJs "\"captions\":".data pr.text.data).length ≤ 1)
    (hjp : env.jsonParse (captionsJsonOf pr.text) =
      .ok (some { captionTracks := some tracks }))
    (htr : tracks ≠ [])
    (hfb : findBestCaptionTrack tracks langs = some track)
    (hcp : env.captionPayload 0 track.baseUrl = .ok tr)
    (hst : tr.status = 200)
    (hzs : parseTranscriptXML tr.text = []) :
    download env mr langs = (.error (.tnfe "Transcript is empty"), []) := by
  have hatt : attemptOnce env langs 0 = .error (.tnfe "Transcript is empty") := by
    unfold attemptOnce
    rw [hp]
    dsimp only
    rw [if_neg (by rw [hrc]; simp), if_neg (by rw [hps]; simp), if_neg hsp, hjp]
    dsimp only
    cases tracks with
    | nil => exact absurd rfl htr
    | cons t ts =>
      dsimp only
      rw [hfb]
      dsimp only
      rw [hcp]
      dsimp only
      rw [if_neg (by rw [hst]; simp), hzs]
      rfl
  exact download_tnfe_first_attempt env mr langs hmr _ hatt

set_option maxRecDepth 40000 in
/-- Witness for C2's amended statement: the empty-payload environment at
retry budget 2, every hypothesis discharged concretely. -/
theorem download_emptyTranscript_no_retry_witness :
    download envE 2 ["ko", "en"] = (.error (.tnfe "Transcript is empty"), []) :=
  download_emptyTranscript_no_retry envE 2 ["ko", "en"] (by decide)
    { status := 200, text := bodyA } { status := 200, text := "" }
    [koTrack] koTrack rfl (by decide) (by decide) (by decide) (by decide)
    (by decide) (by decide) rfl rfl (by decide)

set_option maxRecDepth 40000 in
/-- Counterexample for C2: with a healthy page and an empty caption payload
on every attempt and `maxRetries = 3`, `download` does NOT retry with
backoff and does NOT surface an exhaustion error carrying the attempt count:
it fails on the first attempt with `TranscriptNotFoundError('Transcript is
empty')` and an empty backoff-sleep list. -/
theorem download_emptyTranscript_cex :
    download envE 3 ["ko", "en"] = (.error (.tnfe "Transcript is empty"), []) := by
  decide

set_option maxRecDepth 40000 in
/-- C6 (code bug): end-to-end scenario A.  The pipeline succeeds and the
returned object carries the full concatenated decoded text (the space-join
of the five decoded segment texts, in order) and the extracted metadata —
but only those two fields: the object constructed by `download` (embedded as
`DownloadResult`) has no `segments` field, although its declared return
interface `TranscriptResult` requires the ordered segment sequence. -/
theorem download_scenarioA :
    download envA 3 ["ko", "en"] =
      (.ok { text := "Hello & welcome to the \"show\" number five"
             metadata := { title := "Test Video", author := "Chan"
                           publishDate := some "2024-01-01", duration := some 120 } },
        [])
    ∧ (parseTranscriptXML payloadA).length = 5
    ∧ (parseTranscriptXML payloadA).map (fun s => decodeHTMLEntities s.text) =
        ["Hello & welcome", "to the", "\"show\"", "number", "five"]
    ∧ "Hello & welcome to the \"show\" number five" =
        String.intercalate " "
          ["Hello & welcome", "to the", "\"show\"", "number", "five"] := by
  refine ⟨by decide, by decide, by decide, by decide⟩

/-- The decoder unfolded: the ten table substitutions in order, then the
decimal and hexadecimal passes. -/
theorem decodeHTMLEntities_eq (s : String) :
    decodeHTMLEntities s = String.mk (hexPass (decPass (
      replaceAllJs "&nbsp;".data " ".data (
      replaceAllJs "&#32;".data " ".data (
      replaceAllJs "&#x2F;".data "/".data (
      replaceAllJs "&#x27;".data "\x27".data (
      replaceAllJs "&apos;".data "\x27".data (
      replaceAllJs "&#39;".data "\x27".data (
      replaceAllJs "&quot;".data "\"".data (
      replaceAllJs "&gt;".data ">".data (
      replaceAllJs "&lt;".data "<".data (
      replaceAllJs "&amp;".data "&".data s.data)))))))))))) := rfl

theorem replaceAllJs_id_of_no_sub (pat rep l : List Char)
    (hemp : pat.isEmpty = false) (h : hasSub l pat = false) :
    replaceAllJs pat rep l = l := by
  simp [replaceAllJs, hemp, replGo_id_of_no_sub pat rep l h]

/-- C8 (amended).  The named-entity table pass does run before the numeric
passes, but because the table itself contains the numeric forms (`&#39;`,
`&#x27;`, `&#32;`) applied after `&amp;`, and the numeric passes run on the
output of the table passes, a double-encoded decimal reference `&amp;#N;`
does not degrade gracefully to the single-encoded `&#N;`: it is decoded
twice, all the way down to the literal character with code `N`. -/
theorem decodeHTMLEntities_double_encoded (ds : List Char) (h1 : ds ≠ [])
    (h2 : ∀ c ∈ ds, c.isDigit = true) :
    decodeHTMLEntities (String.mk ("&amp;#".data ++ (ds ++ [';']))) =
      String.mk [fromCharCode (digitsToNat ds)] := by
  by_cases h39 : ds = ['3', '9']
  · subst h39; decide
  by_cases h32 : ds = ['3', '2']
  · subst h32; decide
  -- digits are not special characters
  have hdne : ∀ (x : Char), x.isDigit = false → ∀ c ∈ ds, c ≠ x := by
    intro x hx c hc he
    rw [he] at hc
    rw [show c = x from he ▸ rfl] at *
    exact absurd (h2 x hc) (by simp [hx])
  have htail : ∀ c ∈ ds ++ [';'], c ≠ '&' := by
    intro c hc
    rcases List.mem_append.mp hc with h | h
    · exact hdne '&' (by decide) c h
    · simp at h; subst h; decide
  have hrest : ∀ (ps : List Char), hasSub (ds ++ [';']) ('&' :: ps) = false :=
    fun ps => hasSub_eq_false_of_no_head '&' ps _ htail
  -- no table key other than the matched ones occurs in '&'::'#'::(ds ++ [';'])
  have hA : ∀ (k2 : Char) (kr : List Char), k2 ≠ '#' →
      hasSub ('&' :: '#' :: (ds ++ [';'])) ('&' :: k2 :: kr) = false := by
    intro k2 kr hk2
    rw [hasSub_cons, hasSub_cons]
    have l0 : litPrefix ('&' :: k2 :: kr) ('&' :: '#' :: (ds ++ [';'])) = false := by
      simp [litPrefix, hk2]
    have l1 : litPrefix ('&' :: k2 :: kr) ('#' :: (ds ++ [';'])) = false := by
      simp [litPrefix]
    rw [l0, l1, hrest (k2 :: kr)]
    rfl
  have hX : ∀ (kr : List Char),
      hasSub ('&' :: '#' :: (ds ++ [';'])) ('&' :: '#' :: 'x' :: kr) = false := by
    intro kr
    rw [hasSub_cons, hasSub_cons]
    have l0 : litPrefix ('&' :: '#' :: 'x' :: kr) ('&' :: '#' :: (ds ++ [';'])) = false := by
      cases ds with
      | nil => simp [litPrefix]
      | cons d dt =>
        have hdx : ('x' : Char) ≠ d := Ne.symm (hdne 'x' (by decide) d (by simp))
        simp [litPrefix, hdx]
    have l1 : litPrefix ('&' :: '#' :: 'x' :: kr) ('#' :: (ds ++ [';'])) = false := by
      simp [litPrefix]
    rw [l0, l1, hrest ('#' :: 'x' :: kr)]
    rfl
  have hDD : ∀ (k3 k4 : Char), ds ≠ [k3, k4] →
      hasSub ('&' :: '#' :: (ds ++ [';'])) ('&' :: '#' :: k3 :: k4 :: [';']) = false := by
    intro k3 k4 hne
    rw [hasSub_cons, hasSub_cons]
    have l0 : litPrefix ('&' :: '#' :: k3 :: k4 :: [';'])
        ('&' :: '#' :: (ds ++ [';'])) = false := by
      cases ds with
      | nil => simp [litPrefix]
      | cons d1 dt =>
        cases dt with
        | nil => simp [litPrefix]
        | cons d2 dt2 =>
          cases dt2 with
          | nil =>
            by_cases e1 : k3 = d1
            · have e2 : k4 ≠ d2 := by
                intro h
                exact hne (by rw [e1, h])
              simp [litPrefix, e2]
            · simp [litPrefix, e1]
          | cons d3 dt3 =>
            have hd3 : (';' : Char) ≠ d3 := Ne.symm (hdne ';' (by decide) d3 (by simp))
            simp [litPrefix, hd3]
    have l1 : litPrefix ('&' :: '#' :: k3 :: k4 :: [';']) ('#' :: (ds ++ [';'])) = false := by
      simp [litPrefix]
    rw [l0, l1, hrest ('#' :: k3 :: k4 :: [';'])]
    rfl
  -- the first pass decodes the leading &amp; and nothing else
  have hM : replaceAllJs "&amp;".data "&".data ("&amp;#".data ++ (ds ++ [';'])) =
      '&' :: '#' :: (ds ++ [';']) := by
    have step : replGo ('&' :: "amp;".data) "&".data 0
        (('&' :: "amp;".data) ++ ('#' :: (ds ++ [';']))) =
        "&".data ++ replGo ('&' :: "amp;".data) "&".data 0 ('#' :: (ds ++ [';'])) :=
      replGo_match_head '&' "amp;".data "&".data ('#' :: (ds ++ [';']))
    have hid : replGo ('&' :: "amp;".data) "&".data 0 ('#' :: (ds ++ [';'])) =
        '#' :: (ds ++ [';']) := by
      apply replGo_id_of_no_sub
      rw [hasSub_cons]
      have l1 : litPrefix ('&' :: "amp;".data) ('#' :: (ds ++ [';'])) = false := by
        simp [litPrefix]
      rw [l1, hrest "amp;".data]
      rfl
    show replGo "&amp;".data "&".data 0 ("&amp;#".data ++ (ds ++ [';'])) = _
    rw [show ("&amp;#".data ++ (ds ++ [';']) : List Char) =
      ('&' :: "amp;".data) ++ ('#' :: (ds ++ [';'])) from rfl]
    rw [show ("&amp;".data : List Char) = '&' :: "amp;".data from rfl]
    rw [step, hid]
    rfl
  -- the decimal pass decodes the remaining single reference
  have hmatch : decMatchAt ('&' :: '#' :: (ds ++ [';'])) =
      some (digitsToNat ds, ds.length + 3) := by
    unfold decMatchAt
    rw [if_pos (show litPrefix "&#".data ('&' :: '#' :: (ds ++ [';'])) = true
      from rfl)]
    dsimp only
    rw [show (('&' :: '#' :: (ds ++ [';'])).drop 2 : List Char) = ds ++ [';'] from rfl]
    rw [takeWhile_append_all _ _ h2, takeWhile_cons_of_neg _ _ (by decide),
      List.append_nil]
    have hemp : ds.isEmpty = false := by
      cases ds with
      | nil => exact absurd rfl h1
      | cons d dt => rfl
    rw [if_neg (by simp [hemp])]
    rw [show (ds ++ [';']).drop ds.length = [';'] from List.drop_left _ _]
    rfl
  have hdec : decPass ('&' :: '#' :: (ds ++ [';'])) =
      [fromCharCode (digitsToNat ds)] := by
    show decPassGo 0 ('&' :: '#' :: (ds ++ [';'])) = _
    rw [show decPassGo 0 ('&' :: '#' :: (ds ++ [';'])) =
      (match decMatchAt ('&' :: '#' :: (ds ++ [';'])) with
       | some (n, len) => fromCharCode n :: decPassGo (len - 1) ('#' :: (ds ++ [';']))
       | none => '&' :: decPassGo 0 ('#' :: (ds ++ [';']))) from rfl, hmatch]
    dsimp only
    rw [decPassGo_skip, List.drop_eq_nil_of_le (by simp)]
    rfl
  have hhex : hexPass [fromCharCode (digitsToNat ds)] =
      [fromCharCode (digitsToNat ds)] := by
    have hm : hexMatchAt [fromCharCode (digitsToNat ds)] = none := by
      unfold hexMatchAt
      rw [if_neg]
      simp [litPrefix]
    show hexPassGo 0 [fromCharCode (digitsToNat ds)] = _
    rw [show hexPassGo 0 [fromCharCode (digitsToNat ds)] =
      (match hexMatchAt [fromCharCode (digitsToNat ds)] with
       | some (n, len) => fromCharCode n :: hexPassGo (len - 1) []
       | none => fromCharCode (digitsToNat ds) :: hexPassGo 0 []) from rfl, hm]
    rfl
  -- assemble the pipeline
  rw [decodeHTMLEntities_eq]
  rw [show (String.mk ("&amp;#".data ++ (ds ++ [';']))).data =
    "&amp;#".data ++ (ds ++ [';']) from rfl]
  rw [hM]
  rw [replaceAllJs_id_of_no_sub "&lt;".data "<".data _ (by decide)
    (hA 'l' "t;".data (by decide))]
  rw [replaceAllJs_id_of_no_sub "&gt;".data ">".data _ (by decide)
    (hA 'g' "t;".data (by decide))]
  rw [replaceAllJs_id_of_no_sub "&quot;".data "\"".data _ (by decide)
    (hA 'q' "uot;".data (by decide))]
  rw [replaceAllJs_id_of_no_sub "&#39;".data "\x27".data _ (by decide)
    (hDD '3' '9' h39)]
  rw [replaceAllJs_id_of_no_sub "&apos;".data "\x27".data _ (by decide)
    (hA 'a' "pos;".data (by decide))]
  rw [replaceAllJs_id_of_no_sub "&#x27;".data "\x27".data _ (by decide)
    (hX "27;".data)]
  rw [replaceAllJs_id_of_no_sub "&#x2F;".data "/".data _ (by decide)
    (hX "2F;".data)]
  rw [replaceAllJs_id_of_no_sub "&#32;".data " ".data _ (by decide)
    (hDD '3' '2' h32)]
  rw [replaceAllJs_id_of_no_sub "&nbsp;".data " ".data _ (by decide)
    (hA 'n' "bsp;".data (by decide))]
  rw [hdec, hhex]

/-- Counterexample for C8: the double-encoded `&amp;#39;` does NOT degrade
gracefully to the single-encoded `&#39;` — it is decoded twice, down to the
literal apostrophe, because the table entry `&#39;` runs after `&amp;`. -/
theorem decodeHTMLEntities_double_encoded_cex :
    decodeHTMLEntities "&amp;#39;" = "\x27"
    ∧ decodeHTMLEntities "&amp;#39;" ≠ "&#39;" := by
  refine ⟨by decide, by decide⟩

/-- Witness for C8's amended statement: `&amp;#64;` decodes twice, to `@`. -/
theorem decodeHTMLEntities_double_encoded_witness :
    decodeHTMLEntities (String.mk ("&amp;#".data ++ (['6', '4'] ++ [';']))) =
      String.mk [fromCharCode (digitsToNat ['6', '4'])]
    ∧ String.mk [fromCharCode (digitsToNat ['6', '4'])] = "@" :=
  ⟨decodeHTMLEntities_double_encoded ['6', '4'] (by decide) (by decide), by decide⟩

theorem replaceAllJs_eq_replGo (pat rep l : List Char) (h : pat.isEmpty = false) :
    replaceAllJs pat rep l = replGo pat rep 0 l := by
  simp [replaceAllJs, h]

/-- C9, part (a), as a lemma: decoding changes nothing on a string containing
no character references. -/
theorem decodeHTMLEntities_id_of_no_ref (s : String) (h : hasAnyRef s = false) :
    decodeHTMLEntities s = s := by
  have h3 : entityTable.any (fun p => hasSub s.data p.1) = false ∧
      hasDecRef s.data = false ∧ hasHexRef s.data = false := by
    have hh := h
    rw [hasAnyRef] at hh
    rcases Bool.or_eq_false_iff.mp hh with ⟨h12, hhex⟩
    rcases Bool.or_eq_false_iff.mp h12 with ⟨hany, hdec⟩
    exact ⟨hany, hdec, hhex⟩
  have hsub : ∀ p ∈ entityTable, hasSub s.data p.1 = false := by
    intro p hp
    by_contra hne
    have hany : entityTable.any (fun q => hasSub s.data q.1) = true :=
      List.any_eq_true.mpr ⟨p, hp, Bool.ne_false_iff.mp hne⟩
    simp [h3.1] at hany
  have hdec := h3.2.1
  have hhex := h3.2.2
  rw [decodeHTMLEntities_eq]
  rw [replaceAllJs_id_of_no_sub _ _ _ (by decide)
      (hsub ("&amp;".data, "&".data) (by decide)),
    replaceAllJs_id_of_no_sub _ _ _ (by decide)
      (hsub ("&lt;".data, "<".data) (by decide)),
    replaceAllJs_id_of_no_sub _ _ _ (by decide)
      (hsub ("&gt;".data, ">".data) (by decide)),
    replaceAllJs_id_of_no_sub _ _ _ (by decide)
      (hsub ("&quot;".data, "\"".data) (by decide)),
    replaceAllJs_id_of_no_sub _ _ _ (by decide)
      (hsub ("&#39;".data, "\x27".data) (by decide)),
    replaceAllJs_id_of_no_sub _ _ _ (by decide)
      (hsub ("&apos;".data, "\x27".data) (by decide)),
    replaceAllJs_id_of_no_sub _ _ _ (by decide)
      (hsub ("&#x27;".data, "\x27".data) (by decide)),
    replaceAllJs_id_of_no_sub _ _ _ (by decide)
      (hsub ("&#x2F;".data, "/".data) (by decide)),
    replaceAllJs_id_of_no_sub _ _ _ (by decide)
      (hsub ("&#32;".data, " ".data) (by decide)),
    replaceAllJs_id_of_no_sub _ _ _ (by decide)
      (hsub ("&nbsp;".data, " ".data) (by decide))]
  rw [show decPass s.data = decPassGo 0 s.data from rfl,
    decPassGo_id_of_no_ref s.data hdec,
    show hexPass s.data = hexPassGo 0 s.data from rfl,
    hexPassGo_id_of_no_ref s.data hhex]

theorem concatMap_cons (g : Char → List Char) (c : Char) (cs : List Char) :
    concatMap g (c :: cs) = g c ++ concatMap g cs := rfl

theorem concatMap_eq_self (g : Char → List Char) (cs : List Char)
    (h : ∀ c ∈ cs, g c = [c]) : concatMap g cs = cs := by
  induction cs with
  | nil => rfl
  | cons c cs' ih =>
    rw [concatMap_cons, h c (by simp), ih (fun x hx => h x (by simp [hx]))]
    rfl

theorem blockSafeB_spec (key b : List Char) (h : blockSafeB key b = true) :
    ∀ j, j < b.length →
      ∃ i, i < key.length ∧ j + i < b.length ∧ key[i]? ≠ b[j + i]? := by
  intro j hj
  rw [blockSafeB, List.all_eq_true] at h
  have hji := h j (List.mem_range.mpr hj)
  rw [List.any_eq_true] at hji
  obtain ⟨i, hi, hcond⟩ := hji
  rw [Bool.and_eq_true, decide_eq_true_eq, decide_eq_true_eq] at hcond
  exact ⟨i, List.mem_range.mp hi, hcond.1, hcond.2⟩

theorem replGo_walk_safe (key rep b t : List Char)
    (hsafe : blockSafeB key b = true) :
    replGo key rep 0 (b ++ t) = b ++ replGo key rep 0 t := by
  apply replGo_walk
  intro j hj
  obtain ⟨i, hik, hib, hne⟩ := blockSafeB_spec key b hsafe j hj
  apply litPrefix_eq_false_of_mismatch key (b.drop j) t i hik
  · rw [List.length_drop]
    omega
  · rw [List.getElem?_drop]
    exact hne

/-- One table substitution over a per-character block encoding: when every
block is the pattern itself, the lone ampersand, or structurally unable to
host or start a match, the substitution acts blockwise. -/
theorem replGo_concatMap (key : List Char) (k1 : Char) (krest : List Char)
    (hkey : key = '&' :: k1 :: krest)
    (rep : List Char) (g : Char → List Char) (S : List Char)
    (hne : ∀ c ∈ S, g c ≠ [])
    (hH : ∀ c ∈ S, (g c).head? ≠ some k1)
    (hblk : ∀ c ∈ S, g c = key ∨ g c = ['&'] ∨ blockSafeB key (g c) = true)
    (cs : List Char) (hcs : ∀ c ∈ cs, c ∈ S) :
    replGo key rep 0 (concatMap g cs) = concatMap (gStep key rep g) cs := by
  induction cs with
  | nil => rfl
  | cons c cs' ih =>
    have hc : c ∈ S := hcs c (by simp)
    have ih' := ih (fun x hx => hcs x (by simp [hx]))
    rcases hblk c hc with hkeyc | hamp | hsafe
    · rw [concatMap_cons, hkeyc, hkey, replGo_match_head, ← hkey, ih',
        concatMap_cons, show gStep key rep g c = rep from by simp [gStep, hkeyc]]
    · have hck : g c ≠ key := by rw [hamp, hkey]; simp
      rw [concatMap_cons, hamp]
      have hnp : litPrefix key ('&' :: concatMap g cs') = false := by
        rw [hkey]
        cases cs' with
        | nil => rfl
        | cons c2 cs2 =>
          have hc2 : c2 ∈ S := hcs c2 (by simp)
          have hne2 := hne c2 hc2
          have hH2 := hH c2 hc2
          rw [concatMap_cons]
          cases hgc2 : g c2 with
          | nil => exact absurd hgc2 hne2
          | cons h2c t2 =>
            have hh2 : h2c ≠ k1 := by
              rw [hgc2] at hH2
              exact fun he => hH2 (by simp [he])
            simp [litPrefix, Ne.symm hh2]
      have hne' : (['&'] : List Char) ≠ key := hamp ▸ hck
      rw [List.singleton_append,
        replGo_cons_nomatch key rep '&' (concatMap g cs') hnp, ih',
        concatMap_cons, show gStep key rep g c = ['&'] from by simp [gStep, hamp, hne']]
      rfl
    · have hck : g c ≠ key := by
        intro h
        have hlen : 0 < (g c).length := by rw [h, hkey]; simp
        obtain ⟨i, hik, hib, hne'⟩ := blockSafeB_spec key (g c) hsafe 0 hlen
        rw [h] at hne'
        simp at hne'
      rw [concatMap_cons, replGo_walk_safe key rep _ _ hsafe, ih',
        concatMap_cons, show gStep key rep g c = g c from by simp [gStep, hck]]

theorem encPass1 (cs : List Char) (hcs : ∀ c ∈ cs, c ∈ coveredChars) :
    replaceAllJs "&amp;".data "&".data (concatMap encodeChar cs) =
      concatMap encStep1 cs := by
  rw [replaceAllJs_eq_replGo _ _ _ (by decide)]
  exact replGo_concatMap "&amp;".data 'a' "mp;".data rfl "&".data encodeChar
    coveredChars (by decide) (by decide) (by decide) cs hcs

theorem encPass2 (cs : List Char) (hcs : ∀ c ∈ cs, c ∈ coveredChars) :
    replaceAllJs "&lt;".data "<".data (concatMap encStep1 cs) =
      concatMap encStep2 cs := by
  rw [replaceAllJs_eq_replGo _ _ _ (by decide)]
  exact replGo_concatMap "&lt;".data 'l' "t;".data rfl "<".data encStep1
    coveredChars (by decide) (by decide) (by decide) cs hcs

theorem encPass3 (cs : List Char) (hcs : ∀ c ∈ cs, c ∈ coveredChars) :
    replaceAllJs "&gt;".data ">".data (concatMap encStep2 cs) =
      concatMap encStep3 cs := by
  rw [replaceAllJs_eq_replGo _ _ _ (by decide)]
  exact replGo_concatMap "&gt;".data 'g' "t;".data rfl ">".data encStep2
    coveredChars (by decide) (by decide) (by decide) cs hcs

theorem encPass4 (cs : List Char) (hcs : ∀ c ∈ cs, c ∈ coveredChars) :
    replaceAllJs "&quot;".data "\"".data (concatMap encStep3 cs) =
      concatMap encStep4 cs := by
  rw [replaceAllJs_eq_replGo _ _ _ (by decide)]
  exact replGo_concatMap "&quot;".data 'q' "uot;".data rfl "\"".data encStep3
    coveredChars (by decide) (by decide) (by decide) cs hcs

theorem encPass5 (cs : List Char) (hcs : ∀ c ∈ cs, c ∈ coveredChars) :
    replaceAllJs "&#39;".data "\x27".data (concatMap encStep4 cs) =
      concatMap encStep5 cs := by
  rw [replaceAllJs_eq_replGo _ _ _ (by decide)]
  exact replGo_concatMap "&#39;".data '#' "39;".data rfl "\x27".data encStep4
    coveredChars (by decide) (by decide) (by decide) cs hcs

theorem encPass6 (cs : List Char) (hcs : ∀ c ∈ cs, c ∈ coveredChars) :
    replaceAllJs "&apos;".data "\x27".data (concatMap encStep5 cs) =
      concatMap encStep6 cs := by
  rw [replaceAllJs_eq_replGo _ _ _ (by decide)]
  exact replGo_concatMap "&apos;".data 'a' "pos;".data rfl "\x27".data encStep5
    coveredChars (by decide) (by decide) (by decide) cs hcs

theorem encPass7 (cs : List Char) (hcs : ∀ c ∈ cs, c ∈ coveredChars) :
    replaceAllJs "&#x27;".data "\x27".data (concatMap encStep6 cs) =
      concatMap encStep7 cs := by
  rw [replaceAllJs_eq_replGo _ _ _ (by decide)]
  exact replGo_concatMap "&#x27;".data '#' "x27;".data rfl "\x27".data encStep6
    coveredChars (by decide) (by decide) (by decide) cs hcs

theorem encPass8 (cs : List Char) (hcs : ∀ c ∈ cs, c ∈ coveredChars) :
    replaceAllJs "&#x2F;".data "/".data (concatMap encStep7 cs) =
      concatMap encStep8 cs := by
  rw [replaceAllJs_eq_replGo _ _ _ (by decide)]
  exact replGo_concatMap "&#x2F;".data '#' "x2F;".data rfl "/".data encStep7
    coveredChars (by decide) (by decide) (by decide) cs hcs

theorem encPass9 (cs : List Char) (hcs : ∀ c ∈ cs, c ∈ coveredChars) :
    replaceAllJs "&#32;".data " ".data (concatMap encStep8 cs) =
      concatMap encStep9 cs := by
  rw [replaceAllJs_eq_replGo _ _ _ (by decide)]
  exact replGo_concatMap "&#32;".data '#' "32;".data rfl " ".data encStep8
    coveredChars (by decide) (by decide) (by decide) cs hcs

theorem encPass10 (cs : List Char) (hcs : ∀ c ∈ cs, c ∈ coveredChars) :
    replaceAllJs "&nbsp;".data " ".data (concatMap encStep9 cs) =
      concatMap encStep10 cs := by
  rw [replaceAllJs_eq_replGo _ _ _ (by decide)]
  exact replGo_concatMap "&nbsp;".data 'n' "bsp;".data rfl " ".data encStep9
    coveredChars (by decide) (by decide) (by decide) cs hcs

/-- C9, part (b), as a lemma: encoding every covered character with the
named-entity table and then decoding returns the original string. -/
theorem decodeHTMLEntities_roundtrip (s : String)
    (hcov : ∀ c ∈ s.data, c ∈ coveredChars) :
    decodeHTMLEntities (encodeNamedEntities s) = s := by
  rw [decodeHTMLEntities_eq]
  rw [show (encodeNamedEntities s).data = concatMap encodeChar s.data from rfl]
  rw [encPass1 s.data hcov, encPass2 s.data hcov, encPass3 s.data hcov,
    encPass4 s.data hcov, encPass5 s.data hcov, encPass6 s.data hcov,
    encPass7 s.data hcov, encPass8 s.data hcov, encPass9 s.data hcov,
    encPass10 s.data hcov]
  have hid : ∀ c ∈ coveredChars, encStep10 c = [c] := by decide
  rw [concatMap_eq_self encStep10 s.data (fun c hc => hid c (hcov c hc))]
  have hch : ∀ c ∈ coveredChars, c ≠ '#' := by decide
  have hnh : ∀ c ∈ s.data, c ≠ '#' := fun c hc => hch c (hcov c hc)
  rw [show decPass s.data = decPassGo 0 s.data from rfl,
    decPassGo_id_of_no_ref s.data (hasDecRef_eq_false_of_no_hash s.data hnh),
    show hexPass s.data = hexPassGo 0 s.data from rfl,
    hexPassGo_id_of_no_ref s.data (hasHexRef_eq_false_of_no_hash s.data hnh)]

/-- C9.  The entity decoder is idempotent on already-decoded text — for
every string containing no character references (no table entity as a
substring and no decimal or hexadecimal reference), `decode` returns it
unchanged — and it round-trips: encoding each character covered by the
named-entity table with its table reference and then decoding returns the
original string. -/
theorem decodeHTMLEntities_plain_and_roundtrip :
    (∀ s : String, hasAnyRef s = false → decodeHTMLEntities s = s)
    ∧ (∀ s : String, (∀ c ∈ s.data, c ∈ coveredChars) →
        decodeHTMLEntities (encodeNamedEntities s) = s) :=
  ⟨decodeHTMLEntities_id_of_no_ref, decodeHTMLEntities_roundtrip⟩

/-- Witness for C9: plain text decodes to itself, and a string of all seven
covered characters survives the encode–decode round trip. -/
theorem decodeHTMLEntities_plain_and_roundtrip_witness :
    decodeHTMLEntities "Hello there." = "Hello there."
    ∧ decodeHTMLEntities (encodeNamedEntities "</ \"&\x27>") = "</ \"&\x27>" :=
  ⟨decodeHTMLEntities_plain_and_roundtrip.1 "Hello there." (by decide),
   decodeHTMLEntities_plain_and_roundtrip.2 "</ \"&\x27>" (by decide)⟩

end YtSummary
